import Mathlib

/-! # Loudness: Biquad filter section and Glasberg-Moore loudness integrator

A shallow embedding of `src/Modules/Biquad.cpp` and
`src/Modules/IntegratedLoudnessGM.cpp`.

The sample type `Real` of the sources is idealised as an arbitrary linearly
ordered field `α` (instantiated at `ℚ` and `ℝ` for concrete evaluation), so the
arithmetic below is exact and rounding is not modelled.
The library functions `exp` and `log` are parameters of the embedding; where a
statement depends on the double-precision `exp` returning exactly 0 for a very
negative argument, that is modelled by `underflowingExp`.
Vectors (`RealVec`) are lists; indexing a vector is `List.getD _ _ 0` and
writing a cell is `List.set`.
-/

namespace loudness

variable {α : Type} [LinearOrderedField α]

/-! ## The buffer abstraction -/

/-- Modelled from the spec: the buffer abstraction `SignalBank`, whose
declaration is not among the sources. A buffer is addressed by
(ear, channel, sample) and exposes its shape, its sample rate, its frame rate
and the centre frequency of each channel. The storage is a total function of
the three indices; the shape fields say which indices are meaningful. -/
structure SignalBank (α : Type) where
  nEars : Nat
  nChannels : Nat
  nSamples : Nat
  fs : Nat
  frameRate : α
  centreFreqs : Nat → α
  signal : Nat → Nat → Nat → α

namespace SignalBank

/-- Modelled from the spec: a default-constructed buffer (no shape, all zero). -/
def empty : SignalBank α :=
  { nEars := 0, nChannels := 0, nSamples := 0, fs := 0, frameRate := 0,
    centreFreqs := fun _ => 0, signal := fun _ _ _ => 0 }

def getNEars (sb : SignalBank α) : Nat := sb.nEars

def getNChannels (sb : SignalBank α) : Nat := sb.nChannels

def getNSamples (sb : SignalBank α) : Nat := sb.nSamples

def getFs (sb : SignalBank α) : Nat := sb.fs

def getFrameRate (sb : SignalBank α) : α := sb.frameRate

def getCentreFreq (sb : SignalBank α) (channel : Nat) : α := sb.centreFreqs channel

def setFrameRate (sb : SignalBank α) (frameRate : α) : SignalBank α :=
  { sb with frameRate := frameRate }

/-- Modelled from the spec: the two-index accessor `getSample(channel, sample)`
used by the filter section; it addresses the first ear. -/
def getSample (sb : SignalBank α) (channel sample : Nat) : α := sb.signal 0 channel sample

/-- Modelled from the spec: the two-index writer `setSample(channel, sample, value)`
used by the filter section; it writes one cell of the first ear and no other. -/
def setSample (sb : SignalBank α) (channel sample : Nat) (value : α) : SignalBank α :=
  { sb with signal := fun e c s =>
      if e = 0 ∧ c = channel ∧ s = sample then value else sb.signal e c s }

/-- Modelled from the spec: `getSingleSampleReadPointer(ear, channel)` of a
one-sample-per-channel buffer; indexing the pointer by `k` reads the sample of
channel `channel + k` of that ear. -/
def getSingleSampleReadPointer (sb : SignalBank α) (ear channel : Nat) : Nat → α :=
  fun k => sb.signal ear (channel + k) 0

/-- Modelled from the spec: a write through `getSingleSampleWritePointer(ear, channel)`
at index `k`; it stores into the sample of channel `channel + k` of that ear. -/
def writeSingleSample (sb : SignalBank α) (ear channel k : Nat) (value : α) : SignalBank α :=
  { sb with signal := fun e c s =>
      if e = ear ∧ c = channel + k ∧ s = 0 then value else sb.signal e c s }

/-- Modelled from the spec: `initialize(nEars, nChannels, nSamples, fs)` fixes
the shape and the sample rate of a buffer. The spec leaves the contents of the
storage to the host, so the model keeps them. -/
def initialize4 (sb : SignalBank α) (nEars nChannels nSamples fs : Nat) : SignalBank α :=
  { sb with nEars := nEars, nChannels := nChannels, nSamples := nSamples, fs := fs }

/-- Modelled from the spec: the three-argument `initialize(nChannels, nSamples, fs)`
used by the filter section, which leaves the ear count alone. -/
def initialize3 (sb : SignalBank α) (nChannels nSamples fs : Nat) : SignalBank α :=
  { sb with nChannels := nChannels, nSamples := nSamples, fs := fs }

end SignalBank

/-! ## Biquad -/

/-- The state of a `Biquad`: the fields of the `Filter` base class that
`Biquad.cpp` reads and writes, and the output buffer of `Module`. -/
structure Biquad (α : Type) where
  gain : α
  order : Nat
  bCoefs : List α
  aCoefs : List α
  z : List α
  output : SignalBank α

namespace Biquad

/-- Modelled from the spec: `Filter::setBCoefs`, not among the sources; the
values are stored as given. -/
def setBCoefs (m : Biquad α) (bCoefs : List α) : Biquad α := { m with bCoefs := bCoefs }

/-- Modelled from the spec: `Filter::setACoefs`, not among the sources; the
values are stored as given. -/
def setACoefs (m : Biquad α) (aCoefs : List α) : Biquad α := { m with aCoefs := aCoefs }

/-- Modelled from the spec: the base-class construction `Module("Biquad"), Filter(2)`,
not among the sources. It fixes the order at 2 and leaves no coefficients and no
delay line ("sized at initialization, not before"). The input gain that the base
class installs is the parameter `gain`. -/
def base (gain : α) : Biquad α :=
  { gain := gain, order := 2, bCoefs := [], aCoefs := [], z := [],
    output := SignalBank.empty }

/-- The constructor `Biquad::Biquad(const RealVec &bCoefs, const RealVec &aCoefs)`:
the two length checks only warn, then both vectors are stored. -/
def construct (gain : α) (bCoefs aCoefs : List α) : Biquad α :=
  ((base gain).setBCoefs bCoefs).setACoefs aCoefs

/-- Modelled from the spec: `Filter::normaliseCoefs`, not among the sources:
"normalizes all six taps by dividing by the original a0". -/
def normaliseCoefs (m : Biquad α) : Biquad α :=
  { m with bCoefs := m.bCoefs.map (fun c => c / m.aCoefs.getD 0 0),
           aCoefs := m.aCoefs.map (fun c => c / m.aCoefs.getD 0 0) }

/-- Modelled from the spec: `Filter::resetDelayLine`, not among the sources:
every cell of the delay line is set to 0. -/
def resetDelayLine (m : Biquad α) : Biquad α :=
  { m with z := List.replicate m.z.length 0 }

/-- The method `Biquad::initializeInternal`: the returned flag and the new state. -/
def initializeInternal (m : Biquad α) (input : SignalBank α) : Bool × Biquad α :=
  if m.bCoefs.length = 3 ∧ m.aCoefs.length = 3 then
    let m1 := m.normaliseCoefs
    let m2 := { m1 with z := List.replicate (2 * m1.order) 0 }
    let m3 := { m2 with output :=
      m2.output.initialize3 input.getNChannels input.getNSamples input.getFs }
    (true, m3)
  else
    (false, m)

/-- The body of the sample loop of `Biquad::processInternal` at index `smp`. -/
def processSample (input : SignalBank α) (m : Biquad α) (smp : Nat) : Biquad α :=
  let x := input.getSample 0 smp * m.gain
  let y := m.bCoefs.getD 0 0 * x + m.bCoefs.getD 1 0 * m.z.getD 0 0
            + m.bCoefs.getD 2 0 * m.z.getD 1 0
            - m.aCoefs.getD 1 0 * m.z.getD 2 0 - m.aCoefs.getD 2 0 * m.z.getD 3 0
  let z1 := m.z.set 3 (m.z.getD 2 0)
  let z2 := z1.set 2 y
  let z3 := z2.set 1 (z2.getD 0 0)
  let z4 := z3.set 0 x
  { m with z := z4, output := m.output.setSample 0 smp y }

/-- The first `n` iterations of the sample loop. -/
def processSteps (input : SignalBank α) (m : Biquad α) (n : Nat) : Biquad α :=
  (List.range n).foldl (processSample input) m

/-- The method `Biquad::processInternal`: the loop runs over `smp = 0 .. nSamples - 1`. -/
def processInternal (m : Biquad α) (input : SignalBank α) : Biquad α :=
  processSteps input m input.getNSamples

/-- The method `Biquad::resetInternal`. -/
def resetInternal (m : Biquad α) : Biquad α := m.resetDelayLine

end Biquad

/-! ## IntegratedLoudnessGM -/

/-- Modelled from the spec: the macro `LOUDNESS_ASSERT(condition, message)`, whose
definition is not among the sources: a condition that does not hold is a fatal,
unrecoverable precondition violation carrying the message. -/
def LOUDNESS_ASSERT (condition : Bool) (message : String) : Except String Unit :=
  if condition then Except.ok () else Except.error message

/-- The state of an `IntegratedLoudnessGM`: its data members and the output
buffer of `Module`. -/
structure IntegratedLoudnessGM (α : Type) where
  cParam : α
  attackTimeSTL : α
  releaseTimeSTL : α
  attackTimeLTL : α
  releaseTimeLTL : α
  camStep : α
  timeStep : α
  attackSTLCoef : α
  releaseSTLCoef : α
  attackLTLCoef : α
  releaseLTLCoef : α
  output : SignalBank α

namespace IntegratedLoudnessGM

def setAttackTimeSTL (m : IntegratedLoudnessGM α) (attackTimeSTL : α) :
    IntegratedLoudnessGM α :=
  { m with attackTimeSTL := attackTimeSTL }

def setReleaseTimeSTL (m : IntegratedLoudnessGM α) (releaseTimeSTL : α) :
    IntegratedLoudnessGM α :=
  { m with releaseTimeSTL := releaseTimeSTL }

def setAttackTimeLTL (m : IntegratedLoudnessGM α) (attackTimeLTL : α) :
    IntegratedLoudnessGM α :=
  { m with attackTimeLTL := attackTimeLTL }

def setReleaseTimeLTL (m : IntegratedLoudnessGM α) (releaseTimeLTL : α) :
    IntegratedLoudnessGM α :=
  { m with releaseTimeLTL := releaseTimeLTL }

/-- The method `IntegratedLoudnessGM::configureSmoothingTimes`. The library
function `log` is the parameter `log`. The last branch calls the function again
with the name "GM2002". -/
def configureSmoothingTimes (log : α → α) (m : IntegratedLoudnessGM α) (author : String) :
    IntegratedLoudnessGM α :=
  if author = "GM2002" then
    (((m.setAttackTimeSTL (-0.001 / log (1 - 0.045))).setReleaseTimeSTL
      (-0.001 / log (1 - 0.02))).setAttackTimeLTL
      (-0.001 / log (1 - 0.01))).setReleaseTimeLTL (-0.001 / log (1 - 0.0005))
  else if author = "GM2003" then
    (((m.setAttackTimeSTL (-0.001 / log (1 - 0.045))).setReleaseTimeSTL
      (-0.001 / log (1 - 0.02))).setAttackTimeLTL
      (-0.001 / log (1 - 0.01))).setReleaseTimeLTL (-0.001 / log (1 - 0.005))
  else if author = "CH2012" then
    (((m.setAttackTimeSTL 0.016).setReleaseTimeSTL 0.032).setAttackTimeLTL
      0.1).setReleaseTimeLTL 2.0
  else
    configureSmoothingTimes log m "GM2002"
termination_by (if author = "GM2002" then 0 else 1)
decreasing_by simp_all

/-- The constructor `IntegratedLoudnessGM::IntegratedLoudnessGM(author, cParam)`.
The members that the constructor does not set are taken from `blank`. -/
def construct (log : α → α) (blank : IntegratedLoudnessGM α) (author : String) (cParam : α) :
    IntegratedLoudnessGM α :=
  configureSmoothingTimes log { blank with cParam := cParam } author

/-- The method `IntegratedLoudnessGM::initializeInternal`. The function
`freqToCam` of `AuditoryTools.h` and the library function `exp` are parameters.
A failed assertion is `Except.error`; otherwise the returned flag and the new
state. -/
def initializeInternal (freqToCam exp : α → α) (m : IntegratedLoudnessGM α)
    (input : SignalBank α) : Except String (Bool × IntegratedLoudnessGM α) := do
  LOUDNESS_ASSERT (decide (input.getNChannels > 1))
    "IntegratedLoudnessGM: Insufficient number of input channels."
  LOUDNESS_ASSERT (decide (input.getNEars > 2))
    "IntegratedLoudnessGM: A human has no more than two ears"
  let camStep := freqToCam (input.getCentreFreq 1) - freqToCam (input.getCentreFreq 0)
  let cParam1 := if input.getNEars = 1 then m.cParam * 2 else m.cParam
  let cParam2 := cParam1 * camStep
  let timeStep := 1.0 / input.getFrameRate
  let attackSTLCoef := 1 - exp (-timeStep / m.attackTimeSTL)
  let releaseSTLCoef := 1 - exp (-timeStep / m.releaseTimeSTL)
  let attackLTLCoef := 1 - exp (-timeStep / m.attackTimeLTL)
  let releaseLTLCoef := 1 - exp (-timeStep / m.releaseTimeLTL)
  let output := (m.output.initialize4 input.getNEars 3 1 input.getFs).setFrameRate
    input.getFrameRate
  return (true,
    { m with camStep := camStep, cParam := cParam2, timeStep := timeStep,
             attackSTLCoef := attackSTLCoef, releaseSTLCoef := releaseSTLCoef,
             attackLTLCoef := attackLTLCoef, releaseLTLCoef := releaseLTLCoef,
             output := output })

/-- The body of the ear loop of `IntegratedLoudnessGM::processInternal`. The
previous values are read through the write pointer of the output buffer, that
is from the output buffer itself, before the three cells are overwritten. -/
def processEar (input : SignalBank α) (m : IntegratedLoudnessGM α) (ear : Nat) :
    IntegratedLoudnessGM α :=
  let inputSpecificLoudness := input.getSingleSampleReadPointer ear 0
  let outputIntegratedLoudness := m.output.getSingleSampleReadPointer ear 0
  let il0 := (List.range input.getNChannels).foldl
    (fun il chn => il + inputSpecificLoudness chn) 0
  let il := il0 * m.cParam
  let prevSTL := outputIntegratedLoudness 1
  let stl :=
    if il > prevSTL then m.attackSTLCoef * (il - prevSTL) + prevSTL
    else m.releaseSTLCoef * (il - prevSTL) + prevSTL
  let prevLTL := outputIntegratedLoudness 2
  let ltl :=
    if stl > prevLTL then m.attackLTLCoef * (stl - prevLTL) + prevLTL
    else m.releaseLTLCoef * (stl - prevLTL) + prevLTL
  { m with output :=
      ((m.output.writeSingleSample ear 0 0 il).writeSingleSample ear 0 1
        stl).writeSingleSample ear 0 2 ltl }

/-- The method `IntegratedLoudnessGM::processInternal`: the loop runs over
`ear = 0 .. nEars - 1` of the input. -/
def processInternal (m : IntegratedLoudnessGM α) (input : SignalBank α) :
    IntegratedLoudnessGM α :=
  (List.range input.getNEars).foldl (processEar input) m

/-- The method `IntegratedLoudnessGM::resetInternal`, which does nothing. -/
def resetInternal (m : IntegratedLoudnessGM α) : IntegratedLoudnessGM α := m

end IntegratedLoudnessGM

/-! ## The difference equation of the spec -/

/-- The data of the second-order difference equation as the spec words it: the
five taps used by the recursion, the gain, and the four values found in the
delay line before the block. -/
structure DifferenceEquation (α : Type) where
  b0 : α
  b1 : α
  b2 : α
  a1 : α
  a2 : α
  g : α
  z0 : α
  z1 : α
  z2 : α
  z3 : α

namespace DifferenceEquation

/-- The scaled input of the spec, counted from two places before the block:
`uFrom d x k` is `u[k - 2]`, so `u[-2] = z1`, `u[-1] = z0`, `u[n] = g * x[n]`. -/
def uFrom (d : DifferenceEquation α) (x : Nat → α) : Nat → α
  | 0 => d.z1
  | 1 => d.z0
  | n + 2 => d.g * x n

/-- The output of the spec, counted from two places before the block:
`yFrom d x k` is `y[k - 2]`, so `y[-2] = z3`, `y[-1] = z2` and
`y[n] = b0*u[n] + b1*u[n-1] + b2*u[n-2] - a1*y[n-1] - a2*y[n-2]`. -/
def yFrom (d : DifferenceEquation α) (x : Nat → α) : Nat → α
  | 0 => d.z3
  | 1 => d.z2
  | n + 2 => d.b0 * d.uFrom x (n + 2) + d.b1 * d.uFrom x (n + 1) + d.b2 * d.uFrom x n
      - d.a1 * yFrom d x (n + 1) - d.a2 * yFrom d x n

/-- The scaled input `u[i]` of the spec at an integer index `i ≥ -2`. -/
def u (d : DifferenceEquation α) (x : Nat → α) (i : Int) : α := d.uFrom x (i + 2).toNat

/-- The output `y[i]` of the spec at an integer index `i ≥ -2`. -/
def y (d : DifferenceEquation α) (x : Nat → α) (i : Int) : α := d.yFrom x (i + 2).toNat

end DifferenceEquation

/-! ## The values computed for one ear -/

namespace IntegratedLoudnessGM

/-- The instantaneous loudness computed by one iteration of the ear loop. -/
def earIL (input : SignalBank α) (m : IntegratedLoudnessGM α) (ear : Nat) : α :=
  (∑ chn in Finset.range input.getNChannels, input.signal ear chn 0) * m.cParam

/-- The short-term loudness computed by one iteration of the ear loop. -/
def earSTL (input : SignalBank α) (m : IntegratedLoudnessGM α) (ear : Nat) : α :=
  if earIL input m ear > m.output.signal ear 1 0 then
    m.attackSTLCoef * (earIL input m ear - m.output.signal ear 1 0) + m.output.signal ear 1 0
  else
    m.releaseSTLCoef * (earIL input m ear - m.output.signal ear 1 0) + m.output.signal ear 1 0

/-- The long-term loudness computed by one iteration of the ear loop. -/
def earLTL (input : SignalBank α) (m : IntegratedLoudnessGM α) (ear : Nat) : α :=
  if earSTL input m ear > m.output.signal ear 2 0 then
    m.attackLTLCoef * (earSTL input m ear - m.output.signal ear 2 0) + m.output.signal ear 2 0
  else
    m.releaseLTLCoef * (earSTL input m ear - m.output.signal ear 2 0) + m.output.signal ear 2 0

end IntegratedLoudnessGM

/-! ## Sequences of calls made by the host -/

/-- The two calls a host makes on an initialized filter section. -/
inductive Call (α : Type) where
  | process (input : SignalBank α) : Call α
  | reset : Call α

namespace Biquad

/-- One call of the host on a filter section. -/
def call (m : Biquad α) : Call α → Biquad α
  | Call.process input => m.processInternal input
  | Call.reset => m.resetInternal

/-- A sequence of calls of the host, made in order. -/
def run (m : Biquad α) (calls : List (Call α)) : Biquad α := calls.foldl call m

end Biquad

/-- The buffer whose sample `s` is sample `σ s` of `sb`, in every ear and channel. -/
def SignalBank.reindexSamples (sb : SignalBank α) (σ : Nat → Nat) : SignalBank α :=
  { sb with signal := fun e c s => sb.signal e c (σ s) }

/-- The block made of the samples of `X` followed by the samples of `Y`, in
every ear and channel; the shape and the rates are those of `X`. -/
def SignalBank.append (X Y : SignalBank α) : SignalBank α :=
  { X with nSamples := X.nSamples + Y.nSamples,
           signal := fun e c s =>
             if s < X.nSamples then X.signal e c s else Y.signal e c (s - X.nSamples) }

/-! ## The integrator after its assertions, and over successive frames -/

namespace IntegratedLoudnessGM

/-- The state that `IntegratedLoudnessGM::initializeInternal` builds once both
assertions have passed: the statements that follow them in the source. -/
def initializedState (freqToCam exp : α → α) (m : IntegratedLoudnessGM α)
    (input : SignalBank α) : IntegratedLoudnessGM α :=
  { m with
      camStep := freqToCam (input.getCentreFreq 1) - freqToCam (input.getCentreFreq 0),
      cParam := (if input.getNEars = 1 then m.cParam * 2 else m.cParam)
        * (freqToCam (input.getCentreFreq 1) - freqToCam (input.getCentreFreq 0)),
      timeStep := 1.0 / input.getFrameRate,
      attackSTLCoef := 1 - exp (-(1.0 / input.getFrameRate) / m.attackTimeSTL),
      releaseSTLCoef := 1 - exp (-(1.0 / input.getFrameRate) / m.releaseTimeSTL),
      attackLTLCoef := 1 - exp (-(1.0 / input.getFrameRate) / m.attackTimeLTL),
      releaseLTLCoef := 1 - exp (-(1.0 / input.getFrameRate) / m.releaseTimeLTL),
      output := (m.output.initialize4 input.getNEars 3 1 input.getFs).setFrameRate
        input.getFrameRate }

/-- The state after the first `k` of the successive calls
`process (frames 0)`, `process (frames 1)`, ... -/
def runFrames (m : IntegratedLoudnessGM α) (frames : Nat → SignalBank α) :
    Nat → IntegratedLoudnessGM α
  | 0 => m
  | k + 1 => (runFrames m frames k).processInternal (frames k)

end IntegratedLoudnessGM

/-! ## Concrete instances over the rationals -/

/-- A three-sample, two-channel input block with samples 1, 2, 3 in channel 0
and -1, -2, -3 in channel 1. -/
def exampleBlock : SignalBank ℚ :=
  { nEars := 1, nChannels := 2, nSamples := 3, fs := 48000, frameRate := 48000,
    centreFreqs := fun _ => 0,
    signal := fun _ c s => if c = 0 then (s : ℚ) + 1 else -((s : ℚ) + 1) }

/-- An initialized filter section with taps b = [1, 2, 3], a = [1, 4, 5], gain 2
and the delay line (1, 0, -1, 2). -/
def exampleBiquad : Biquad ℚ :=
  { gain := 2, order := 2, bCoefs := [1, 2, 3], aCoefs := [1, 4, 5], z := [1, 0, -1, 2],
    output := SignalBank.empty.initialize3 2 3 48000 }

/-- A second three-sample block: it shares samples 0 and 1 of channel 0 with
`exampleBlock` and differs at sample 2. -/
def exampleBlockChanged : SignalBank ℚ :=
  { exampleBlock with signal := fun e c s => if s = 2 then 100 else exampleBlock.signal e c s }

/-- A one-frame input of the integrator with `nEars` ears and two channels per
ear: specific loudness 3 and 4 in ear 0, and 10 and 20 in every other ear. -/
def exampleFrame (nEars : Nat) : SignalBank ℚ :=
  { nEars := nEars, nChannels := 2, nSamples := 1, fs := 48000, frameRate := 1000,
    centreFreqs := fun c => (c : ℚ) * 100 + 50,
    signal := fun e c _ => if e = 0 then (c : ℚ) + 3 else ((c : ℚ) + 1) * 10 }

/-- An integrator state with scale 2, coefficients 1/2, 1/4, 1/8, 1/16 and a
previous output (IL, STL, LTL) = (0, 1, 2) in every ear. -/
def exampleIntegrator : IntegratedLoudnessGM ℚ :=
  { cParam := 2, attackTimeSTL := 1, releaseTimeSTL := 1, attackTimeLTL := 1,
    releaseTimeLTL := 1, camStep := 1, timeStep := 1,
    attackSTLCoef := 1 / 2, releaseSTLCoef := 1 / 4, attackLTLCoef := 1 / 8,
    releaseLTLCoef := 1 / 16,
    output := { nEars := 2, nChannels := 3, nSamples := 1, fs := 48000, frameRate := 1000,
                centreFreqs := fun _ => 0, signal := fun _ c _ => (c : ℚ) } }

/-- A block that agrees with `exampleBlock` on channel 0 and holds 7 everywhere
in the other channels. -/
def exampleBlockOtherChannels : SignalBank ℚ :=
  { exampleBlock with signal := fun e c s => if c = 0 then exampleBlock.signal e c s else 7 }

/-! ## Concrete instances over any ordered field -/

/-- A one-frame input with three ears and two channels per ear, at 1000 frames
per second, with specific loudness 1/2 in every channel. -/
def threeEarFrame : SignalBank α :=
  { nEars := 3, nChannels := 2, nSamples := 1, fs := 48000, frameRate := 1000,
    centreFreqs := fun c => (c : α) * 100 + 50, signal := fun _ _ _ => 1 / 2 }

/-- An integrator as left by a constructor: scale 1, the four time constants
equal to 1, every other member and the whole output buffer 0. -/
def unitIntegrator : IntegratedLoudnessGM α :=
  { cParam := 1, attackTimeSTL := 1, releaseTimeSTL := 1, attackTimeLTL := 1,
    releaseTimeLTL := 1, camStep := 0, timeStep := 0, attackSTLCoef := 0, releaseSTLCoef := 0,
    attackLTLCoef := 0, releaseLTLCoef := 0, output := SignalBank.empty }

/-- A second two-ear frame: ear 1 as in `exampleFrame 2`, ear 0 changed to 100
in both channels. -/
def exampleFrameOtherEar : SignalBank ℚ :=
  { exampleFrame 2 with signal := fun e c s => if e = 1 then (exampleFrame 2).signal e c s else 100 }

/-- The state `exampleIntegrator` with the previous output of ear 0 changed to 55
in every channel; ear 1 is as before. -/
def exampleIntegratorOtherEar : IntegratedLoudnessGM ℚ :=
  { exampleIntegrator with
      output := { exampleIntegrator.output with
        signal := fun e c s => if e = 1 then exampleIntegrator.output.signal e c s else 55 } }

/-- The state built after the assertions of initialize from `unitIntegrator` on
`threeEarFrame`, with centre frequencies mapped to Cams by division by 200:
camStep is 1/2, the scale is 1/2 and the previous outputs are 0. -/
def exampleInitialized (exp : α → α) : IntegratedLoudnessGM α :=
  unitIntegrator.initializedState (fun f => f / 200) exp threeEarFrame

/-! ## The library exponential where it underflows -/

/-- The library function `exp` on doubles in the range where it underflows: for
an argument below -746 the result is exactly 0, since the exponential is then
below half the smallest positive double; elsewhere it is the function `exp`
given. -/
def underflowingExp (exp : α → α) (x : α) : α := if x < -746 then 0 else exp x

/-- A one-frame input with three ears and two channels per ear, at one frame
every 16 seconds (frame rate 1/16), with specific loudness 1/2 in every channel. -/
def slowFrame : SignalBank α :=
  { nEars := 3, nChannels := 2, nSamples := 1, fs := 48000, frameRate := 1 / 16,
    centreFreqs := fun c => (c : α) * 100 + 50, signal := fun _ _ _ => 1 / 2 }

/-- The integrator constructed with the preset "CH2012" and cParam = 1, the
members that the constructor does not set and the output buffer being 0. -/
def slowIntegrator (log : α → α) : IntegratedLoudnessGM α :=
  IntegratedLoudnessGM.construct log unitIntegrator "CH2012" 1

/-- The state built after the assertions of initialize from `slowIntegrator` on
`slowFrame`, with centre frequencies mapped to Cams by division by 200 and the
library exponential underflowing below -746. -/
def slowInitialized (log exp : α → α) : IntegratedLoudnessGM α :=
  (slowIntegrator log).initializedState (fun f => f / 200) (underflowingExp exp) slowFrame

/-! ## Lemmas on the sample loop of Biquad -/

namespace Biquad

theorem processSteps_zero (input : SignalBank α) (m : Biquad α) :
    processSteps input m 0 = m := rfl

theorem processSteps_succ (input : SignalBank α) (m : Biquad α) (n : Nat) :
    processSteps input m (n + 1) = processSample input (processSteps input m n) n := by
  simp [processSteps, List.range_succ, List.foldl_append]

theorem processSample_bCoefs (input : SignalBank α) (m : Biquad α) (smp : Nat) :
    (processSample input m smp).bCoefs = m.bCoefs := rfl

theorem processSample_aCoefs (input : SignalBank α) (m : Biquad α) (smp : Nat) :
    (processSample input m smp).aCoefs = m.aCoefs := rfl

theorem processSample_gain (input : SignalBank α) (m : Biquad α) (smp : Nat) :
    (processSample input m smp).gain = m.gain := rfl

theorem processSample_order (input : SignalBank α) (m : Biquad α) (smp : Nat) :
    (processSample input m smp).order = m.order := rfl

theorem processSteps_frame (input : SignalBank α) (m : Biquad α) (n : Nat) :
    (processSteps input m n).bCoefs = m.bCoefs ∧ (processSteps input m n).aCoefs = m.aCoefs
      ∧ (processSteps input m n).gain = m.gain ∧ (processSteps input m n).order = m.order := by
  induction n with
  | zero => simp [processSteps_zero]
  | succ n ih =>
    rw [processSteps_succ, processSample_bCoefs, processSample_aCoefs, processSample_gain,
      processSample_order]
    exact ih

/-- One iteration on a four-cell delay line: the new delay line. -/
theorem processSample_z (input : SignalBank α) (m : Biquad α) (smp : Nat)
    (b0 b1 b2 a0 a1 a2 z0 z1 z2 z3 : α)
    (hb : m.bCoefs = [b0, b1, b2]) (ha : m.aCoefs = [a0, a1, a2])
    (hz : m.z = [z0, z1, z2, z3]) :
    (processSample input m smp).z =
      [input.getSample 0 smp * m.gain, z0,
        b0 * (input.getSample 0 smp * m.gain) + b1 * z0 + b2 * z1 - a1 * z2 - a2 * z3, z2] := by
  simp [processSample, hb, ha, hz]

/-- One iteration on a four-cell delay line: the sample written. -/
theorem processSample_output_same (input : SignalBank α) (m : Biquad α) (smp : Nat)
    (b0 b1 b2 a0 a1 a2 z0 z1 z2 z3 : α)
    (hb : m.bCoefs = [b0, b1, b2]) (ha : m.aCoefs = [a0, a1, a2])
    (hz : m.z = [z0, z1, z2, z3]) :
    (processSample input m smp).output.getSample 0 smp =
      b0 * (input.getSample 0 smp * m.gain) + b1 * z0 + b2 * z1 - a1 * z2 - a2 * z3 := by
  simp [processSample, SignalBank.setSample, SignalBank.getSample, hb, ha, hz]

/-- One iteration writes the cell (ear 0, channel 0, sample `smp`) and no other. -/
theorem processSample_output_other (input : SignalBank α) (m : Biquad α) (smp : Nat)
    (e c s : Nat) (h : ¬ (e = 0 ∧ c = 0 ∧ s = smp)) :
    (processSample input m smp).output.signal e c s = m.output.signal e c s := by
  simp [processSample, SignalBank.setSample, h]

/-- The loop invariant of `processInternal`: after `k` iterations the delay line
holds the last two scaled inputs and the last two outputs of the difference
equation, and the first `k` output samples are its first `k` outputs. -/
theorem processSteps_spec (input : SignalBank α) (m : Biquad α)
    (b0 b1 b2 a0 a1 a2 z0 z1 z2 z3 : α)
    (hb : m.bCoefs = [b0, b1, b2]) (ha : m.aCoefs = [a0, a1, a2])
    (hz : m.z = [z0, z1, z2, z3]) (d : DifferenceEquation α)
    (hd : d = ⟨b0, b1, b2, a1, a2, m.gain, z0, z1, z2, z3⟩) (k : Nat) :
    (processSteps input m k).z =
        [d.uFrom (input.getSample 0) (k + 1), d.uFrom (input.getSample 0) k,
          d.yFrom (input.getSample 0) (k + 1), d.yFrom (input.getSample 0) k]
      ∧ ∀ j, j < k →
          (processSteps input m k).output.getSample 0 j = d.yFrom (input.getSample 0) (j + 2) := by
  induction k with
  | zero =>
    subst hd
    simp [processSteps_zero, hz, DifferenceEquation.uFrom, DifferenceEquation.yFrom]
  | succ k ih =>
    obtain ⟨ihz, iho⟩ := ih
    obtain ⟨fb, fa, fg, _⟩ := processSteps_frame input m k
    have hb1 : (processSteps input m k).bCoefs = [b0, b1, b2] := by rw [fb, hb]
    have ha1 : (processSteps input m k).aCoefs = [a0, a1, a2] := by rw [fa, ha]
    have hy : d.yFrom (input.getSample 0) (k + 2) =
        b0 * (input.getSample 0 k * (processSteps input m k).gain)
          + b1 * d.uFrom (input.getSample 0) (k + 1) + b2 * d.uFrom (input.getSample 0) k
          - a1 * d.yFrom (input.getSample 0) (k + 1) - a2 * d.yFrom (input.getSample 0) k := by
      rw [fg]
      subst hd
      simp only [DifferenceEquation.yFrom, DifferenceEquation.uFrom]
      ring
    have hu : d.uFrom (input.getSample 0) (k + 2)
        = input.getSample 0 k * (processSteps input m k).gain := by
      rw [fg]
      subst hd
      simp only [DifferenceEquation.uFrom]
      ring
    refine ⟨?_, ?_⟩
    · rw [processSteps_succ, processSample_z input _ k b0 b1 b2 a0 a1 a2 _ _ _ _ hb1 ha1 ihz,
        ← hy, ← hu]
    · intro j hj
      rw [processSteps_succ]
      by_cases hjk : j = k
      · subst hjk
        rw [processSample_output_same input _ j b0 b1 b2 a0 a1 a2 _ _ _ _ hb1 ha1 ihz, ← hy]
      · have hlt : j < k := by omega
        have := processSample_output_other input (processSteps input m k) k 0 0 j (by omega)
        simp only [SignalBank.getSample]
        rw [this]
        exact iho j hlt

end Biquad

namespace DifferenceEquation

theorem u_natCast (d : DifferenceEquation α) (x : Nat → α) (n : Nat) :
    d.u x (n : Int) = d.uFrom x (n + 2) := by
  have h : ((n : Int) + 2).toNat = n + 2 := by omega
  simp [u, h]

theorem u_natCast_sub_one (d : DifferenceEquation α) (x : Nat → α) (n : Nat) :
    d.u x ((n : Int) - 1) = d.uFrom x (n + 1) := by
  have h : ((n : Int) - 1 + 2).toNat = n + 1 := by omega
  simp [u, h]

theorem u_natCast_sub_two (d : DifferenceEquation α) (x : Nat → α) (n : Nat) :
    d.u x ((n : Int) - 2) = d.uFrom x n := by
  have h : ((n : Int) - 2 + 2).toNat = n := by omega
  simp [u, h]

theorem y_natCast (d : DifferenceEquation α) (x : Nat → α) (n : Nat) :
    d.y x (n : Int) = d.yFrom x (n + 2) := by
  have h : ((n : Int) + 2).toNat = n + 2 := by omega
  simp [y, h]

theorem y_natCast_sub_one (d : DifferenceEquation α) (x : Nat → α) (n : Nat) :
    d.y x ((n : Int) - 1) = d.yFrom x (n + 1) := by
  have h : ((n : Int) - 1 + 2).toNat = n + 1 := by omega
  simp [y, h]

theorem y_natCast_sub_two (d : DifferenceEquation α) (x : Nat → α) (n : Nat) :
    d.y x ((n : Int) - 2) = d.yFrom x n := by
  have h : ((n : Int) - 2 + 2).toNat = n := by omega
  simp [y, h]

end DifferenceEquation

namespace Biquad

/-- The block run of `processInternal` against the difference equation of the
spec, with the sequences of the spec indexed by integers from -2. -/
theorem processInternal_spec (m : Biquad α) (input : SignalBank α)
    (b0 b1 b2 a0 a1 a2 z0 z1 z2 z3 : α)
    (hb : m.bCoefs = [b0, b1, b2]) (ha : m.aCoefs = [a0, a1, a2])
    (hz : m.z = [z0, z1, z2, z3]) (d : DifferenceEquation α)
    (hd : d = ⟨b0, b1, b2, a1, a2, m.gain, z0, z1, z2, z3⟩) :
    (∀ n : Nat, n < input.getNSamples →
        (m.processInternal input).output.getSample 0 n = d.y (input.getSample 0) n)
      ∧ (m.processInternal input).z =
          [d.u (input.getSample 0) ((input.getNSamples : Int) - 1),
            d.u (input.getSample 0) ((input.getNSamples : Int) - 2),
            d.y (input.getSample 0) ((input.getNSamples : Int) - 1),
            d.y (input.getSample 0) ((input.getNSamples : Int) - 2)] := by
  obtain ⟨h1, h2⟩ := processSteps_spec input m b0 b1 b2 a0 a1 a2 z0 z1 z2 z3 hb ha hz d hd
    input.getNSamples
  refine ⟨?_, ?_⟩
  · intro n hn
    rw [DifferenceEquation.y_natCast]
    exact h2 n hn
  · rw [DifferenceEquation.u_natCast_sub_one, DifferenceEquation.u_natCast_sub_two,
      DifferenceEquation.y_natCast_sub_one, DifferenceEquation.y_natCast_sub_two]
    exact h1

/-- C1: for an initialized Biquad with taps b0, b1, b2, a1, a2, gain g and delay
line (z0, z1, z2, z3), and every input block x of N samples, there are sequences
u and y with u[-1] = z0, u[-2] = z1, y[-1] = z2, y[-2] = z3, u[n] = g * x[n] and
y[n] = b0*u[n] + b1*u[n-1] + b2*u[n-2] - a1*y[n-1] - a2*y[n-2] for every n ≥ 0,
such that `processInternal` writes y[n] at output sample n for every n < N and
leaves the delay line (u[N-1], u[N-2], y[N-1], y[N-2]); the last part holds for
every N, in particular for N ≥ 2. -/
theorem process_difference_equation (m : Biquad α) (input : SignalBank α)
    (b0 b1 b2 a0 a1 a2 g z0 z1 z2 z3 : α)
    (hb : m.bCoefs = [b0, b1, b2]) (ha : m.aCoefs = [a0, a1, a2])
    (hg : m.gain = g) (hz : m.z = [z0, z1, z2, z3]) :
    ∃ u y : Int → α,
      (u (-1) = z0 ∧ u (-2) = z1 ∧ y (-1) = z2 ∧ y (-2) = z3)
      ∧ (∀ n : Nat, u n = g * input.getSample 0 n)
      ∧ (∀ n : Nat, y n = b0 * u n + b1 * u (n - 1) + b2 * u (n - 2)
            - a1 * y (n - 1) - a2 * y (n - 2))
      ∧ (∀ n : Nat, n < input.getNSamples →
            (m.processInternal input).output.getSample 0 n = y n)
      ∧ (m.processInternal input).z =
          [u ((input.getNSamples : Int) - 1), u ((input.getNSamples : Int) - 2),
            y ((input.getNSamples : Int) - 1), y ((input.getNSamples : Int) - 2)] := by
  obtain ⟨h1, h2⟩ := processInternal_spec m input b0 b1 b2 a0 a1 a2 z0 z1 z2 z3 hb ha hz
    ⟨b0, b1, b2, a1, a2, m.gain, z0, z1, z2, z3⟩ rfl
  subst hg
  refine ⟨DifferenceEquation.u ⟨b0, b1, b2, a1, a2, m.gain, z0, z1, z2, z3⟩ (input.getSample 0),
    DifferenceEquation.y ⟨b0, b1, b2, a1, a2, m.gain, z0, z1, z2, z3⟩ (input.getSample 0),
    ?_, ?_, ?_, h1, h2⟩
  · simp [DifferenceEquation.u, DifferenceEquation.y, DifferenceEquation.uFrom,
      DifferenceEquation.yFrom]
  · intro n
    rw [DifferenceEquation.u_natCast]
    simp [DifferenceEquation.uFrom]
  · intro n
    rw [DifferenceEquation.y_natCast, DifferenceEquation.u_natCast,
      DifferenceEquation.u_natCast_sub_one, DifferenceEquation.u_natCast_sub_two,
      DifferenceEquation.y_natCast_sub_one, DifferenceEquation.y_natCast_sub_two]
    simp [DifferenceEquation.yFrom]

/-- The difference equation on the rational example: taps b = [1, 2, 3],
a1 = 4, a2 = 5, gain 2, delay line (1, 0, -1, 2), block of three samples. -/
theorem process_difference_equation_witness :
    ∃ u y : Int → ℚ,
      (u (-1) = 1 ∧ u (-2) = 0 ∧ y (-1) = -1 ∧ y (-2) = 2)
      ∧ (∀ n : Nat, u n = 2 * exampleBlock.getSample 0 n)
      ∧ (∀ n : Nat, y n = 1 * u n + 2 * u (n - 1) + 3 * u (n - 2)
            - 4 * y (n - 1) - 5 * y (n - 2))
      ∧ (∀ n : Nat, n < exampleBlock.getNSamples →
            (exampleBiquad.processInternal exampleBlock).output.getSample 0 n = y n)
      ∧ (exampleBiquad.processInternal exampleBlock).z =
          [u ((exampleBlock.getNSamples : Int) - 1), u ((exampleBlock.getNSamples : Int) - 2),
            y ((exampleBlock.getNSamples : Int) - 1), y ((exampleBlock.getNSamples : Int) - 2)] :=
  process_difference_equation exampleBiquad exampleBlock 1 2 3 1 4 5 2 1 0 (-1) 2 rfl rfl rfl rfl

/-! ### What a run of the loop depends on -/

/-- The loop reads only the coefficients, the gain, the delay line and the
samples of channel 0 it has reached: two runs that agree on these agree on the
delay line and on the output samples written. -/
theorem processSteps_congr (X X' : SignalBank α) (m m' : Biquad α)
    (hb : m.bCoefs = m'.bCoefs) (ha : m.aCoefs = m'.aCoefs) (hg : m.gain = m'.gain)
    (hz : m.z = m'.z) (k : Nat) (hx : ∀ j, j < k → X.getSample 0 j = X'.getSample 0 j) :
    (processSteps X m k).z = (processSteps X' m' k).z
      ∧ ∀ j, j < k →
          (processSteps X m k).output.getSample 0 j
            = (processSteps X' m' k).output.getSample 0 j := by
  induction k with
  | zero => simp [processSteps_zero, hz]
  | succ k ih =>
    obtain ⟨ihz, iho⟩ := ih (fun j hj => hx j (by omega))
    obtain ⟨fb, fa, fg, _⟩ := processSteps_frame X m k
    obtain ⟨fb', fa', fg', _⟩ := processSteps_frame X' m' k
    have hxk := hx k (by omega)
    rw [processSteps_succ, processSteps_succ]
    refine ⟨?_, ?_⟩
    · simp only [processSample, fb, fa, fg, fb', fa', fg', ihz, hb, ha, hg, hxk]
    · intro j hj
      by_cases hjk : j = k
      · subst hjk
        simp only [processSample, SignalBank.setSample, SignalBank.getSample, fb, fa, fg, fb',
          fa', fg', ihz, hb, ha, hg]
        simp only [SignalBank.getSample] at hxk
        simp [hxk]
      · have h1 := processSample_output_other X (processSteps X m k) k 0 0 j (by omega)
        have h2 := processSample_output_other X' (processSteps X' m' k) k 0 0 j (by omega)
        simp only [SignalBank.getSample]
        rw [h1, h2]
        exact iho j (by omega)

/-- Iterations `k, k + 1, ...` of the loop write only the samples `k, k + 1, ...` of
channel 0 of the first ear. -/
theorem processSteps_output_stable (X : SignalBank α) (m : Biquad α) (k i : Nat)
    (e c s : Nat) (h : ¬ (e = 0 ∧ c = 0 ∧ k ≤ s)) :
    (processSteps X m (k + i)).output.signal e c s = (processSteps X m k).output.signal e c s := by
  induction i with
  | zero => rfl
  | succ i ih =>
    rw [← Nat.add_assoc, processSteps_succ,
      processSample_output_other X _ (k + i) e c s (by omega)]
    exact ih

theorem processSteps_z_length (X : SignalBank α) (m : Biquad α) (k : Nat) :
    (processSteps X m k).z.length = m.z.length := by
  induction k with
  | zero => rfl
  | succ k ih =>
    rw [processSteps_succ, ← ih]
    simp [processSample]

/-- A call leaves the coefficients, the gain and the order alone and keeps the
number of cells of the delay line. -/
theorem call_frame (m : Biquad α) (c : Call α) :
    (m.call c).bCoefs = m.bCoefs ∧ (m.call c).aCoefs = m.aCoefs ∧ (m.call c).gain = m.gain
      ∧ (m.call c).order = m.order ∧ (m.call c).z.length = m.z.length := by
  cases c with
  | process input =>
    obtain ⟨h1, h2, h3, h4⟩ := processSteps_frame input m input.getNSamples
    exact ⟨h1, h2, h3, h4, processSteps_z_length input m input.getNSamples⟩
  | reset => simp [call, resetInternal, resetDelayLine]

theorem run_frame (m : Biquad α) (calls : List (Call α)) :
    (m.run calls).bCoefs = m.bCoefs ∧ (m.run calls).aCoefs = m.aCoefs
      ∧ (m.run calls).gain = m.gain ∧ (m.run calls).order = m.order
      ∧ (m.run calls).z.length = m.z.length := by
  induction calls generalizing m with
  | nil => simp [run]
  | cons c cs ih =>
    obtain ⟨h1, h2, h3, h4, h5⟩ := ih (m.call c)
    obtain ⟨k1, k2, k3, k4, k5⟩ := call_frame m c
    simp only [run, List.foldl_cons] at h1 h2 h3 h4 h5 ⊢
    exact ⟨h1.trans k1, h2.trans k2, h3.trans k3, h4.trans k4, h5.trans k5⟩

/-- With taps b = [1, 0, 0], a1 = a2 = 0 and unit gain every iteration writes its
input sample, whatever the delay line holds. -/
theorem processSteps_identity (X : SignalBank α) (m : Biquad α) (a0 : α)
    (hb : m.bCoefs = [1, 0, 0]) (ha : m.aCoefs = [a0, 0, 0]) (hg : m.gain = 1) (k : Nat) :
    ∀ j, j < k → (processSteps X m k).output.getSample 0 j = X.getSample 0 j := by
  induction k with
  | zero => intro j hj; omega
  | succ k ih =>
    intro j hj
    obtain ⟨fb, fa, fg, _⟩ := processSteps_frame X m k
    rw [processSteps_succ]
    by_cases hjk : j = k
    · subst hjk
      simp [processSample, SignalBank.setSample, SignalBank.getSample, fb, fa, fg, hb, ha, hg]
    · have h1 := processSample_output_other X (processSteps X m k) k 0 0 j (by omega)
      simp only [SignalBank.getSample] at ih ⊢
      rw [h1]
      exact ih j (by omega)

/-! ### Initialization -/

theorem initializeInternal_of_lengths (m : Biquad α) (input : SignalBank α)
    (hb : m.bCoefs.length = 3) (ha : m.aCoefs.length = 3) :
    m.initializeInternal input =
      (true,
        { gain := m.gain, order := m.order,
          bCoefs := m.bCoefs.map (fun c => c / m.aCoefs.getD 0 0),
          aCoefs := m.aCoefs.map (fun c => c / m.aCoefs.getD 0 0),
          z := List.replicate (2 * m.order) 0,
          output := m.output.initialize3 input.getNChannels input.getNSamples input.getFs }) := by
  simp [initializeInternal, normaliseCoefs, hb, ha]

theorem initializeInternal_of_not_lengths (m : Biquad α) (input : SignalBank α)
    (h : ¬ (m.bCoefs.length = 3 ∧ m.aCoefs.length = 3)) :
    m.initializeInternal input = (false, m) := by
  simp only [initializeInternal, if_neg h]

theorem initializeInternal_fst (m : Biquad α) (input : SignalBank α) :
    (m.initializeInternal input).1 = true ↔ (m.bCoefs.length = 3 ∧ m.aCoefs.length = 3) := by
  by_cases h : m.bCoefs.length = 3 ∧ m.aCoefs.length = 3
  · simp [initializeInternal_of_lengths m input h.1 h.2, h]
  · simp [initializeInternal_of_not_lengths m input h, h]

/-! ### The claims on Biquad -/

/-- C2: the Biquad constructed with b = [1, 0, 0], a = [1, 0, 0] and unit gain
initializes successfully, and from then on, whatever four values the delay line
holds and whatever sequence of process and reset calls has been made, process
writes at every output sample of a block the input sample itself. -/
theorem identity_filter (shape X : SignalBank α) (z0 z1 z2 z3 : α) (calls : List (Call α))
    (n : Nat) (hn : n < X.getNSamples) :
    ((construct (1 : α) [1, 0, 0] [1, 0, 0]).initializeInternal shape).1 = true
      ∧ ((({ ((construct (1 : α) [1, 0, 0] [1, 0, 0]).initializeInternal shape).2 with
              z := [z0, z1, z2, z3] } : Biquad α).run calls).processInternal X).output.getSample
            0 n
          = X.getSample 0 n := by
  have hi := initializeInternal_of_lengths (construct (1 : α) [1, 0, 0] [1, 0, 0]) shape rfl rfl
  refine ⟨by rw [hi], ?_⟩
  obtain ⟨fb, fa, fg, _, _⟩ := run_frame
    ({ ((construct (1 : α) [1, 0, 0] [1, 0, 0]).initializeInternal shape).2 with
        z := [z0, z1, z2, z3] } : Biquad α) calls
  refine processSteps_identity X _ 1 ?_ ?_ ?_ X.getNSamples n hn
  · rw [fb, hi]; simp [construct, setACoefs, setBCoefs, base]
  · rw [fa, hi]; simp [construct, setACoefs, setBCoefs, base]
  · rw [fg, hi]; simp [construct, setACoefs, setBCoefs, base]

/-- The identity filter on the rational example, after a reset, a block and
another reset, with the delay line preset to (5, 6, 7, 8). -/
theorem identity_filter_witness :
    ((construct (1 : ℚ) [1, 0, 0] [1, 0, 0]).initializeInternal exampleBlock).1 = true
      ∧ ((({ ((construct (1 : ℚ) [1, 0, 0] [1, 0, 0]).initializeInternal exampleBlock).2 with
              z := [5, 6, 7, 8] } : Biquad ℚ).run
            [Call.reset, Call.process exampleBlock, Call.reset]).processInternal
          exampleBlock).output.getSample 0 2
          = exampleBlock.getSample 0 2 :=
  identity_filter exampleBlock exampleBlock 5 6 7 8
    [Call.reset, Call.process exampleBlock, Call.reset] 2 (by decide)

/-- C3: for coefficient vectors b and a of length 3 and any gain, take a Biquad
constructed and initialized with them and then used for any sequence of process
and reset calls. Calling reset and then process on a block X gives the same
final delay line and the same output block as process on X gives on a second
Biquad freshly constructed with the same b, a and gain and initialized. -/
theorem reset_equivalence (g : α) (b a : List α) (hb : b.length = 3) (ha : a.length = 3)
    (shape shape' X : SignalBank α) (calls : List (Call α)) :
    (((((construct g b a).initializeInternal shape).2.run calls).resetInternal).processInternal
          X).z
        = (((construct g b a).initializeInternal shape').2.processInternal X).z
      ∧ ∀ n, n < X.getNSamples →
          (((((construct g b a).initializeInternal shape).2.run
                calls).resetInternal).processInternal X).output.getSample 0 n
            = (((construct g b a).initializeInternal shape').2.processInternal
                X).output.getSample 0 n := by
  have hi := initializeInternal_of_lengths (construct g b a) shape
    (by simpa [construct, setACoefs, setBCoefs] using hb)
    (by simpa [construct, setACoefs, setBCoefs] using ha)
  have hi' := initializeInternal_of_lengths (construct g b a) shape'
    (by simpa [construct, setACoefs, setBCoefs] using hb)
    (by simpa [construct, setACoefs, setBCoefs] using ha)
  obtain ⟨fb, fa, fg, _, fz⟩ := run_frame ((construct g b a).initializeInternal shape).2 calls
  refine processSteps_congr X X _ _ ?_ ?_ ?_ ?_ X.getNSamples (fun _ _ => rfl)
  · simp only [resetInternal, resetDelayLine]
    rw [fb, hi, hi']
  · simp only [resetInternal, resetDelayLine]
    rw [fa, hi, hi']
  · simp only [resetInternal, resetDelayLine]
    rw [fg, hi, hi']
  · simp only [resetInternal, resetDelayLine]
    rw [fz, hi, hi']
    simp

/-- Reset equivalence on the rational example: taps b = [1, 2, 3], a = [2, 4, 8],
gain 3, one block of history. -/
theorem reset_equivalence_witness :
    (((((construct (3 : ℚ) [1, 2, 3] [2, 4, 8]).initializeInternal exampleBlock).2.run
          [Call.process exampleBlock]).resetInternal).processInternal exampleBlock).z
        = (((construct (3 : ℚ) [1, 2, 3] [2, 4, 8]).initializeInternal
            exampleBlock).2.processInternal exampleBlock).z
      ∧ ∀ n, n < exampleBlock.getNSamples →
          (((((construct (3 : ℚ) [1, 2, 3] [2, 4, 8]).initializeInternal exampleBlock).2.run
                [Call.process exampleBlock]).resetInternal).processInternal
              exampleBlock).output.getSample 0 n
            = (((construct (3 : ℚ) [1, 2, 3] [2, 4, 8]).initializeInternal
                exampleBlock).2.processInternal exampleBlock).output.getSample 0 n :=
  reset_equivalence 3 [1, 2, 3] [2, 4, 8] rfl rfl exampleBlock exampleBlock exampleBlock
    [Call.process exampleBlock]

/-- C4: if two input blocks of the same length agree on samples 0..n of channel 0,
then from the same Biquad state process writes the same output samples 0..n for
both; in particular re-indexing the samples of a block by any map that fixes
0..n leaves output samples 0..n as they were. -/
theorem delay_line_causality (m : Biquad α) (X X' : SignalBank α) (n : Nat)
    (hlen : X.getNSamples = X'.getNSamples) (hn : n < X.getNSamples)
    (hagree : ∀ j, j ≤ n → X.getSample 0 j = X'.getSample 0 j) :
    (∀ j, j ≤ n →
        (m.processInternal X).output.getSample 0 j = (m.processInternal X').output.getSample 0 j)
      ∧ ∀ σ : Nat → Nat, (∀ j, j ≤ n → σ j = j) → ∀ j, j ≤ n →
          (m.processInternal (X.reindexSamples σ)).output.getSample 0 j
            = (m.processInternal X).output.getSample 0 j := by
  have key : ∀ Y Y' : SignalBank α, Y.getNSamples = Y'.getNSamples → n < Y.getNSamples →
      (∀ j, j ≤ n → Y.getSample 0 j = Y'.getSample 0 j) → ∀ j, j ≤ n →
      (m.processInternal Y).output.getSample 0 j
        = (m.processInternal Y').output.getSample 0 j := by
    intro Y Y' hl hlt hag j hj
    obtain ⟨i, hi⟩ : ∃ i, Y.getNSamples = (n + 1) + i := ⟨Y.getNSamples - (n + 1), by omega⟩
    have h1 := processSteps_output_stable Y m (n + 1) i 0 0 j (by omega)
    have h2 := processSteps_output_stable Y' m (n + 1) i 0 0 j (by omega)
    have h3 := (processSteps_congr Y Y' m m rfl rfl rfl rfl (n + 1)
      (fun k hk => hag k (by omega))).2 j (by omega)
    simp only [processInternal, SignalBank.getSample] at h3 ⊢
    rw [← hl, hi, h1, h2]
    exact h3
  refine ⟨key X X' hlen hn hagree, ?_⟩
  intro σ hσ j hj
  refine key (X.reindexSamples σ) X rfl hn ?_ j hj
  intro k hk
  simp [SignalBank.reindexSamples, SignalBank.getSample, hσ k hk]

/-- Causality on the rational example: the two blocks agree on samples 0 and 1
and differ at sample 2. -/
theorem delay_line_causality_witness :
    (∀ j, j ≤ 1 →
        (exampleBiquad.processInternal exampleBlock).output.getSample 0 j
          = (exampleBiquad.processInternal exampleBlockChanged).output.getSample 0 j)
      ∧ ∀ σ : Nat → Nat, (∀ j, j ≤ 1 → σ j = j) → ∀ j, j ≤ 1 →
          (exampleBiquad.processInternal (exampleBlock.reindexSamples σ)).output.getSample 0 j
            = (exampleBiquad.processInternal exampleBlock).output.getSample 0 j :=
  delay_line_causality exampleBiquad exampleBlock exampleBlockChanged 1 rfl (by decide)
    (by
      intro j hj
      have h2 : j ≠ 2 := by omega
      simp [exampleBlockChanged, SignalBank.getSample, h2])

/-- C5: for a Biquad of order 2 with taps b = [b0, b1, b2], a = [a0, a1, a2] and
a0 ≠ 0, initialize succeeds and stores b = [b0/a0, b1/a0, b2/a0] and
a = [1, a1/a0, a2/a0]; with a = [2, 4, 6] that is a = [1, 2, 3] and every b tap
halved; and the outputs that process then writes are those of the difference
equation with the taps b0/a0, b1/a0, b2/a0, a1/a0, a2/a0 from a zero delay line. -/
theorem coefficient_normalization (m : Biquad α) (input : SignalBank α)
    (b0 b1 b2 a0 a1 a2 : α) (hb : m.bCoefs = [b0, b1, b2]) (ha : m.aCoefs = [a0, a1, a2])
    (ho : m.order = 2) (h0 : a0 ≠ 0) :
    (m.initializeInternal input).1 = true
      ∧ (m.initializeInternal input).2.bCoefs = [b0 / a0, b1 / a0, b2 / a0]
      ∧ (m.initializeInternal input).2.aCoefs = [1, a1 / a0, a2 / a0]
      ∧ (a0 = 2 → a1 = 4 → a2 = 6 →
          (m.initializeInternal input).2.aCoefs = [1, 2, 3]
            ∧ (m.initializeInternal input).2.bCoefs = [b0 / 2, b1 / 2, b2 / 2])
      ∧ ∀ (X : SignalBank α) (n : Nat), n < X.getNSamples →
          ((m.initializeInternal input).2.processInternal X).output.getSample 0 n
            = DifferenceEquation.y
                ⟨b0 / a0, b1 / a0, b2 / a0, a1 / a0, a2 / a0, m.gain, 0, 0, 0, 0⟩
                (X.getSample 0) n := by
  have hi := initializeInternal_of_lengths m input (by simp [hb]) (by simp [ha])
  have hB : (m.initializeInternal input).2.bCoefs = [b0 / a0, b1 / a0, b2 / a0] := by
    rw [hi]; simp [hb, ha]
  have hA : (m.initializeInternal input).2.aCoefs = [1, a1 / a0, a2 / a0] := by
    rw [hi]; simp [ha, div_self h0]
  have hZ : (m.initializeInternal input).2.z = [0, 0, 0, 0] := by
    rw [hi]; simp [ho, List.replicate]
  have hG : (m.initializeInternal input).2.gain = m.gain := by rw [hi]
  refine ⟨by rw [hi], hB, hA, ?_, ?_⟩
  · intro e0 e1 e2
    subst e0 e1 e2
    rw [hA, hB]
    refine ⟨?_, rfl⟩
    norm_num
  · intro X n hn
    exact (processInternal_spec _ X _ _ _ _ _ _ _ _ _ _ hB hA hZ _ (by rw [hG])).1 n hn

/-- Normalization on the rational example: b = [1, 2, 3], a = [2, 4, 6]. -/
theorem coefficient_normalization_witness :
    ((construct (1 : ℚ) [1, 2, 3] [2, 4, 6]).initializeInternal exampleBlock).2.aCoefs
        = [1, 2, 3]
      ∧ ((construct (1 : ℚ) [1, 2, 3] [2, 4, 6]).initializeInternal exampleBlock).2.bCoefs
        = [1 / 2, 2 / 2, 3 / 2] :=
  (coefficient_normalization (construct (1 : ℚ) [1, 2, 3] [2, 4, 6]) exampleBlock
    1 2 3 2 4 6 rfl rfl rfl (by norm_num)).2.2.2.1 rfl rfl rfl

/-- C6: initialize returns false exactly when the feedforward or the feedback
vector does not have length 3; when it returns false the whole state
(coefficients, delay line, output buffer) is the one before the call; and the
constructor stores the two vectors as given, whatever their lengths. -/
theorem initialize_false_iff (m : Biquad α) (input : SignalBank α) :
    ((m.initializeInternal input).1 = false ↔ (m.bCoefs.length ≠ 3 ∨ m.aCoefs.length ≠ 3))
      ∧ ((m.initializeInternal input).1 = false → (m.initializeInternal input).2 = m)
      ∧ ∀ (g : α) (b a : List α), (construct g b a).bCoefs = b ∧ (construct g b a).aCoefs = a
          ∧ (construct g b a).z = [] := by
  refine ⟨?_, ?_, ?_⟩
  · have h := initializeInternal_fst m input
    constructor
    · intro hf
      by_contra hc
      have : m.bCoefs.length = 3 ∧ m.aCoefs.length = 3 := by
        constructor
        · by_contra h1; exact hc (Or.inl h1)
        · by_contra h2; exact hc (Or.inr h2)
      rw [h.2 this] at hf
      exact Bool.noConfusion hf
    · intro hne
      cases hv : (m.initializeInternal input).1 with
      | false => rfl
      | true =>
        have := h.1 hv
        rcases hne with h1 | h2
        · exact absurd this.1 h1
        · exact absurd this.2 h2
  · intro hf
    by_cases h : m.bCoefs.length = 3 ∧ m.aCoefs.length = 3
    · rw [(initializeInternal_fst m input).2 h] at hf
      exact Bool.noConfusion hf
    · rw [initializeInternal_of_not_lengths m input h]
  · intro g b a
    exact ⟨rfl, rfl, rfl⟩

/-- C7: on a Biquad whose delay line has 4 cells, reset sets the 4 cells to 0,
leaves the coefficients, the gain, the order and the output buffer as they
were, and a second reset changes nothing more. -/
theorem reset_effect (m : Biquad α) (hz : m.z.length = 4) :
    m.resetInternal.z = [0, 0, 0, 0]
      ∧ m.resetInternal.bCoefs = m.bCoefs ∧ m.resetInternal.aCoefs = m.aCoefs
      ∧ m.resetInternal.gain = m.gain ∧ m.resetInternal.order = m.order
      ∧ m.resetInternal.output = m.output
      ∧ m.resetInternal.resetInternal = m.resetInternal := by
  refine ⟨?_, rfl, rfl, rfl, rfl, rfl, ?_⟩
  · simp [resetInternal, resetDelayLine, hz, List.replicate]
  · simp [resetInternal, resetDelayLine]

/-- Reset on the rational example, whose delay line is (1, 0, -1, 2). -/
theorem reset_effect_witness :
    exampleBiquad.resetInternal.z = [0, 0, 0, 0]
      ∧ exampleBiquad.resetInternal.bCoefs = exampleBiquad.bCoefs
      ∧ exampleBiquad.resetInternal.aCoefs = exampleBiquad.aCoefs
      ∧ exampleBiquad.resetInternal.gain = exampleBiquad.gain
      ∧ exampleBiquad.resetInternal.order = exampleBiquad.order
      ∧ exampleBiquad.resetInternal.output = exampleBiquad.output
      ∧ exampleBiquad.resetInternal.resetInternal = exampleBiquad.resetInternal :=
  reset_effect exampleBiquad rfl

/-- C8: both constructors give order 2, and on a Biquad of order 2 every
successful initialize leaves a delay line of exactly 4 = 2 * order cells, all 0,
and an output buffer with the channel count, the sample count and the sample
rate of the input. -/
theorem initialize_allocates (m : Biquad α) (input : SignalBank α) (ho : m.order = 2)
    (hok : (m.initializeInternal input).1 = true) :
    (m.initializeInternal input).2.z = [0, 0, 0, 0]
      ∧ (m.initializeInternal input).2.z.length = 2 * (m.initializeInternal input).2.order
      ∧ (m.initializeInternal input).2.output.getNChannels = input.getNChannels
      ∧ (m.initializeInternal input).2.output.getNSamples = input.getNSamples
      ∧ (m.initializeInternal input).2.output.getFs = input.getFs
      ∧ (∀ g : α, (base g).order = 2)
      ∧ ∀ (g : α) (b a : List α), (construct g b a).order = 2 := by
  obtain ⟨hb, ha⟩ := (initializeInternal_fst m input).1 hok
  rw [initializeInternal_of_lengths m input hb ha]
  refine ⟨?_, ?_, rfl, rfl, rfl, fun _ => rfl, fun _ _ _ => rfl⟩
  · simp [ho, List.replicate]
  · simp

/-- Allocation on the rational example: a Biquad with taps of length 3
initialized against the three-sample, two-channel block. -/
theorem initialize_allocates_witness :
    ((construct (1 : ℚ) [1, 2, 3] [2, 4, 6]).initializeInternal exampleBlock).2.z = [0, 0, 0, 0]
      ∧ ((construct (1 : ℚ) [1, 2, 3] [2, 4, 6]).initializeInternal exampleBlock).2.output.getNSamples
          = 3 :=
  ⟨(initialize_allocates (construct (1 : ℚ) [1, 2, 3] [2, 4, 6]) exampleBlock rfl
      ((initializeInternal_fst _ _).2 ⟨rfl, rfl⟩)).1,
    (initialize_allocates (construct (1 : ℚ) [1, 2, 3] [2, 4, 6]) exampleBlock rfl
      ((initializeInternal_fst _ _).2 ⟨rfl, rfl⟩)).2.2.2.1⟩

end Biquad

/-! ## IntegratedLoudnessGM: the ear loop -/

namespace IntegratedLoudnessGM

/-- The accumulation loop over the channels is the sum over the channels. -/
theorem foldl_add_eq_sum (f : Nat → α) (n : Nat) :
    (List.range n).foldl (fun il chn => il + f chn) 0 = ∑ chn in Finset.range n, f chn := by
  induction n with
  | zero => simp
  | succ n ih => simp [List.range_succ, List.foldl_append, Finset.sum_range_succ, ih]

/-- One iteration of the ear loop writes in no other ear. -/
theorem processEar_other (input : SignalBank α) (m : IntegratedLoudnessGM α) (ear e c s : Nat)
    (h : e ≠ ear) : (processEar input m ear).output.signal e c s = m.output.signal e c s := by
  simp [processEar, SignalBank.writeSingleSample, h]

/-- One iteration of the ear loop leaves the scale and the four coefficients alone. -/
theorem processEar_params (input : SignalBank α) (m : IntegratedLoudnessGM α) (ear : Nat) :
    (processEar input m ear).cParam = m.cParam
      ∧ (processEar input m ear).attackSTLCoef = m.attackSTLCoef
      ∧ (processEar input m ear).releaseSTLCoef = m.releaseSTLCoef
      ∧ (processEar input m ear).attackLTLCoef = m.attackLTLCoef
      ∧ (processEar input m ear).releaseLTLCoef = m.releaseLTLCoef :=
  ⟨rfl, rfl, rfl, rfl, rfl⟩

/-- One iteration of the ear loop writes the three values of its ear. -/
theorem processEar_same (input : SignalBank α) (m : IntegratedLoudnessGM α) (ear : Nat) :
    (processEar input m ear).output.signal ear 0 0 = earIL input m ear
      ∧ (processEar input m ear).output.signal ear 1 0 = earSTL input m ear
      ∧ (processEar input m ear).output.signal ear 2 0 = earLTL input m ear := by
  simp [processEar, SignalBank.writeSingleSample, SignalBank.getSingleSampleReadPointer,
    earIL, earSTL, earLTL, foldl_add_eq_sum]

/-- The values computed for an ear read the state only through the scale, the
four coefficients and the previous outputs of that ear. -/
theorem ear_values_congr (input : SignalBank α) (m m' : IntegratedLoudnessGM α) (ear : Nat)
    (hc : m'.cParam = m.cParam) (h1 : m'.attackSTLCoef = m.attackSTLCoef)
    (h2 : m'.releaseSTLCoef = m.releaseSTLCoef) (h3 : m'.attackLTLCoef = m.attackLTLCoef)
    (h4 : m'.releaseLTLCoef = m.releaseLTLCoef)
    (ho : ∀ c s, m'.output.signal ear c s = m.output.signal ear c s) :
    earIL input m' ear = earIL input m ear ∧ earSTL input m' ear = earSTL input m ear
      ∧ earLTL input m' ear = earLTL input m ear := by
  have hIL : earIL input m' ear = earIL input m ear := by simp [earIL, hc]
  have hSTL : earSTL input m' ear = earSTL input m ear := by simp [earSTL, hIL, h1, h2, ho]
  exact ⟨hIL, hSTL, by simp [earLTL, hSTL, h3, h4, ho]⟩

/-- The invariant of the ear loop: after `k` iterations the scale and the
coefficients are as before, the ears not yet reached are as before, and every
ear reached holds the three values computed from the state before the call. -/
theorem earLoop_spec (input : SignalBank α) (m : IntegratedLoudnessGM α) (k : Nat) :
    (((List.range k).foldl (processEar input) m).cParam = m.cParam
      ∧ ((List.range k).foldl (processEar input) m).attackSTLCoef = m.attackSTLCoef
      ∧ ((List.range k).foldl (processEar input) m).releaseSTLCoef = m.releaseSTLCoef
      ∧ ((List.range k).foldl (processEar input) m).attackLTLCoef = m.attackLTLCoef
      ∧ ((List.range k).foldl (processEar input) m).releaseLTLCoef = m.releaseLTLCoef)
      ∧ (∀ e c s, k ≤ e →
          ((List.range k).foldl (processEar input) m).output.signal e c s = m.output.signal e c s)
      ∧ ∀ e, e < k →
          ((List.range k).foldl (processEar input) m).output.signal e 0 0 = earIL input m e
            ∧ ((List.range k).foldl (processEar input) m).output.signal e 1 0 = earSTL input m e
            ∧ ((List.range k).foldl (processEar input) m).output.signal e 2 0
                = earLTL input m e := by
  induction k with
  | zero =>
    refine ⟨⟨rfl, rfl, rfl, rfl, rfl⟩, fun _ _ _ _ => rfl, ?_⟩
    intro e he
    omega
  | succ k ih =>
    obtain ⟨⟨p0, p1, p2, p3, p4⟩, hrest, hdone⟩ := ih
    rw [List.range_succ, List.foldl_append]
    simp only [List.foldl_cons, List.foldl_nil]
    obtain ⟨q0, q1, q2, q3, q4⟩ := processEar_params input
      ((List.range k).foldl (processEar input) m) k
    refine ⟨⟨q0.trans p0, q1.trans p1, q2.trans p2, q3.trans p3, q4.trans p4⟩, ?_, ?_⟩
    · intro e c s he
      rw [processEar_other input _ k e c s (by omega)]
      exact hrest e c s (by omega)
    · intro e he
      by_cases hek : e = k
      · subst hek
        obtain ⟨v0, v1, v2⟩ := processEar_same input ((List.range e).foldl (processEar input) m) e
        obtain ⟨w0, w1, w2⟩ := ear_values_congr input m
          ((List.range e).foldl (processEar input) m) e p0 p1 p2 p3 p4
          (fun c s => hrest e c s (le_refl e))
        exact ⟨v0.trans w0, v1.trans w1, v2.trans w2⟩
      · rw [processEar_other input _ k e 0 0 hek, processEar_other input _ k e 1 0 hek,
          processEar_other input _ k e 2 0 hek]
        exact hdone e (by omega)

/-- C9: for every ear of the input, process writes [IL, STL, LTL] to output
channels 0, 1, 2 of that ear, where IL = cParam * (sum of the ear's specific
loudness over all input channels), STL = prevSTL + attackSTLCoef*(IL-prevSTL) if
IL > prevSTL and prevSTL + releaseSTLCoef*(IL-prevSTL) otherwise, LTL =
prevLTL + attackLTLCoef*(STL-prevLTL) if STL > prevLTL and
prevLTL + releaseLTLCoef*(STL-prevLTL) otherwise, prevSTL and prevLTL being the
values in output channels 1 and 2 of that ear before the call. -/
theorem process_writes_IL_STL_LTL (m : IntegratedLoudnessGM α) (input : SignalBank α)
    (ear : Nat) (hear : ear < input.getNEars) :
    ∃ IL STL LTL prevSTL prevLTL : α,
      prevSTL = m.output.signal ear 1 0 ∧ prevLTL = m.output.signal ear 2 0
      ∧ IL = m.cParam * ∑ chn in Finset.range input.getNChannels, input.signal ear chn 0
      ∧ STL = (if IL > prevSTL then prevSTL + m.attackSTLCoef * (IL - prevSTL)
                else prevSTL + m.releaseSTLCoef * (IL - prevSTL))
      ∧ LTL = (if STL > prevLTL then prevLTL + m.attackLTLCoef * (STL - prevLTL)
                else prevLTL + m.releaseLTLCoef * (STL - prevLTL))
      ∧ (m.processInternal input).output.signal ear 0 0 = IL
      ∧ (m.processInternal input).output.signal ear 1 0 = STL
      ∧ (m.processInternal input).output.signal ear 2 0 = LTL := by
  obtain ⟨h0, h1, h2⟩ := (earLoop_spec input m input.getNEars).2.2 ear hear
  refine ⟨earIL input m ear, earSTL input m ear, earLTL input m ear, m.output.signal ear 1 0,
    m.output.signal ear 2 0, rfl, rfl, ?_, ?_, ?_, h0, h1, h2⟩
  · simp only [earIL]
    ring
  · simp only [earSTL]
    split_ifs <;> ring
  · simp only [earLTL]
    split_ifs <;> ring

/-- The three written values on the rational example, ear 1 of a two-ear frame. -/
theorem process_writes_IL_STL_LTL_witness :
    ∃ IL STL LTL prevSTL prevLTL : ℚ,
      prevSTL = exampleIntegrator.output.signal 1 1 0
      ∧ prevLTL = exampleIntegrator.output.signal 1 2 0
      ∧ IL = exampleIntegrator.cParam
          * ∑ chn in Finset.range (exampleFrame 2).getNChannels, (exampleFrame 2).signal 1 chn 0
      ∧ STL = (if IL > prevSTL then prevSTL + exampleIntegrator.attackSTLCoef * (IL - prevSTL)
                else prevSTL + exampleIntegrator.releaseSTLCoef * (IL - prevSTL))
      ∧ LTL = (if STL > prevLTL then prevLTL + exampleIntegrator.attackLTLCoef * (STL - prevLTL)
                else prevLTL + exampleIntegrator.releaseLTLCoef * (STL - prevLTL))
      ∧ (exampleIntegrator.processInternal (exampleFrame 2)).output.signal 1 0 0 = IL
      ∧ (exampleIntegrator.processInternal (exampleFrame 2)).output.signal 1 1 0 = STL
      ∧ (exampleIntegrator.processInternal (exampleFrame 2)).output.signal 1 2 0 = LTL :=
  process_writes_IL_STL_LTL exampleIntegrator (exampleFrame 2) 1 (by decide)

/-! ## IntegratedLoudnessGM: the assertions of initialize -/

/-- With more than one channel, `initializeInternal` passes its two assertions
exactly when the input declares more than two ears. -/
theorem initializeInternal_isOk_iff (freqToCam exp : α → α) (m : IntegratedLoudnessGM α)
    (input : SignalBank α) (hc : 1 < input.getNChannels) :
    (∃ r, m.initializeInternal freqToCam exp input = Except.ok r) ↔ 2 < input.getNEars := by
  by_cases h : 2 < input.getNEars
  · simp [initializeInternal, LOUDNESS_ASSERT, hc, h, bind, Except.bind, pure, Except.pure]
  · simp [initializeInternal, LOUDNESS_ASSERT, hc, h, bind, Except.bind]

/-- C10, the code at the inputs the claim names: on a two-channel input that
declares 1 ear, and on one that declares 2 ears, `initializeInternal` stops at
the assertion on the ear count, and on one that declares 3 ears it returns true;
with 0 ears it stops at the same assertion. -/
theorem initialize_ear_count_inverted (freqToCam exp : ℚ → ℚ) (m : IntegratedLoudnessGM ℚ) :
    m.initializeInternal freqToCam exp (exampleFrame 1)
        = Except.error "IntegratedLoudnessGM: A human has no more than two ears"
      ∧ m.initializeInternal freqToCam exp (exampleFrame 2)
        = Except.error "IntegratedLoudnessGM: A human has no more than two ears"
      ∧ (∃ m', m.initializeInternal freqToCam exp (exampleFrame 3) = Except.ok (true, m'))
      ∧ m.initializeInternal freqToCam exp (exampleFrame 0)
        = Except.error "IntegratedLoudnessGM: A human has no more than two ears" := by
  refine ⟨?_, ?_, ?_, ?_⟩
  · simp [initializeInternal, LOUDNESS_ASSERT, exampleFrame, SignalBank.getNChannels,
      SignalBank.getNEars, bind, Except.bind]
  · simp [initializeInternal, LOUDNESS_ASSERT, exampleFrame, SignalBank.getNChannels,
      SignalBank.getNEars, bind, Except.bind]
  · simp [initializeInternal, LOUDNESS_ASSERT, exampleFrame, SignalBank.getNChannels,
      SignalBank.getNEars, bind, Except.bind, pure, Except.pure]
  · simp [initializeInternal, LOUDNESS_ASSERT, exampleFrame, SignalBank.getNChannels,
      SignalBank.getNEars, bind, Except.bind]

end IntegratedLoudnessGM

/-! ## Biquad: splitting a block, and the channels touched -/

namespace Biquad

/-- One iteration reads its input only through the sample of channel 0 at its
index, and the state only through the coefficients, the gain and the delay line. -/
theorem processSample_congr (X X' : SignalBank α) (m m' : Biquad α) (s s' : Nat)
    (hb : m.bCoefs = m'.bCoefs) (ha : m.aCoefs = m'.aCoefs) (hg : m.gain = m'.gain)
    (hz : m.z = m'.z) (hx : X.getSample 0 s = X'.getSample 0 s') :
    (processSample X m s).z = (processSample X' m' s').z
      ∧ (processSample X m s).output.getSample 0 s
          = (processSample X' m' s').output.getSample 0 s' := by
  refine ⟨?_, ?_⟩
  · simp only [processSample, hb, ha, hg, hz, hx]
  · simp only [processSample, SignalBank.setSample, SignalBank.getSample, hb, ha, hg, hz]
    simp only [SignalBank.getSample] at hx
    simp [hx]

/-- Two inputs with the same samples of channel 0 up to `k` drive the loop
through the same states. -/
theorem processSteps_input_congr (X X' : SignalBank α) (m : Biquad α) (k : Nat)
    (hx : ∀ j, j < k → X.getSample 0 j = X'.getSample 0 j) :
    processSteps X m k = processSteps X' m k := by
  induction k with
  | zero => rfl
  | succ k ih =>
    rw [processSteps_succ, processSteps_succ, ih (fun j hj => hx j (by omega))]
    simp only [processSample, hx k (by omega)]

theorem append_getSample_left {β : Type} (X Y : SignalBank β) (j : Nat) (hj : j < X.getNSamples) :
    (X.append Y).getSample 0 j = X.getSample 0 j := by
  simp only [SignalBank.getNSamples] at hj
  simp [SignalBank.append, SignalBank.getSample, hj]

theorem append_getSample_right {β : Type} (X Y : SignalBank β) (j : Nat) :
    (X.append Y).getSample 0 (X.getNSamples + j) = Y.getSample 0 j := by
  simp [SignalBank.append, SignalBank.getSample, SignalBank.getNSamples]

/-- The loop on `X ++ Y`, once past the samples of `X`, goes through the delay
lines of the loop on `Y` started from the state left by the loop on `X`, and
writes the same values, shifted by the length of `X`. -/
theorem processSteps_append (X Y : SignalBank α) (m : Biquad α) (i : Nat) :
    (processSteps (X.append Y) m (X.getNSamples + i)).z
        = (processSteps Y (processSteps X m X.getNSamples) i).z
      ∧ ∀ j, j < i →
          (processSteps (X.append Y) m (X.getNSamples + i)).output.getSample 0
              (X.getNSamples + j)
            = (processSteps Y (processSteps X m X.getNSamples) i).output.getSample 0 j := by
  induction i with
  | zero =>
    refine ⟨?_, fun j hj => by omega⟩
    rw [Nat.add_zero, processSteps_zero,
      processSteps_input_congr (X.append Y) X m X.getNSamples
        (fun j hj => append_getSample_left X Y j hj)]
  | succ i ih =>
    obtain ⟨ihz, iho⟩ := ih
    obtain ⟨fb, fa, fg, _⟩ := processSteps_frame (X.append Y) m (X.getNSamples + i)
    obtain ⟨gb, ga, gg, _⟩ := processSteps_frame Y (processSteps X m X.getNSamples) i
    obtain ⟨kb, ka, kg, _⟩ := processSteps_frame X m X.getNSamples
    rw [← Nat.add_assoc, processSteps_succ, processSteps_succ]
    obtain ⟨hz, ho⟩ := processSample_congr (X.append Y) Y
      (processSteps (X.append Y) m (X.getNSamples + i))
      (processSteps Y (processSteps X m X.getNSamples) i) (X.getNSamples + i) i
      (by rw [fb, gb, kb]) (by rw [fa, ga, ka]) (by rw [fg, gg, kg]) ihz
      (append_getSample_right X Y i)
    refine ⟨hz, ?_⟩
    intro j hj
    by_cases hji : j = i
    · subst hji
      exact ho
    · have h1 := processSample_output_other (X.append Y)
        (processSteps (X.append Y) m (X.getNSamples + i)) (X.getNSamples + i) 0 0
        (X.getNSamples + j) (by omega)
      have h2 := processSample_output_other Y
        (processSteps Y (processSteps X m X.getNSamples) i) i 0 0 j (by omega)
      simp only [SignalBank.getSample] at iho ⊢
      rw [h1, h2]
      exact iho j (by omega)

/-- C16: from any Biquad state, processing a block X and then a block Y in two
successive process calls leaves the delay line that one process call on the
concatenation X ++ Y leaves, the first call writes the first part of the output
of the one call, and the second call writes its remaining part. -/
theorem block_splitting (m : Biquad α) (X Y : SignalBank α) :
    ((m.processInternal X).processInternal Y).z = (m.processInternal (X.append Y)).z
      ∧ (∀ n, n < X.getNSamples →
          (m.processInternal X).output.getSample 0 n
            = (m.processInternal (X.append Y)).output.getSample 0 n)
      ∧ ∀ n, n < Y.getNSamples →
          ((m.processInternal X).processInternal Y).output.getSample 0 n
            = (m.processInternal (X.append Y)).output.getSample 0 (X.getNSamples + n) := by
  have hlen : (X.append Y).getNSamples = X.getNSamples + Y.getNSamples := rfl
  obtain ⟨hz, ho⟩ := processSteps_append X Y m Y.getNSamples
  simp only [processInternal, hlen]
  refine ⟨hz.symm, ?_, fun n hn => (ho n hn).symm⟩
  intro n hn
  have h1 := processSteps_output_stable (X.append Y) m X.getNSamples Y.getNSamples 0 0 n
    (by omega)
  simp only [SignalBank.getSample]
  rw [h1, processSteps_input_congr (X.append Y) X m X.getNSamples
    (fun j hj => append_getSample_left X Y j hj)]

/-- C20: two inputs of the same length that agree on channel 0 take process from
a Biquad state to the same delay line and the same output buffer; the output
cells of every channel other than 0 keep the values they had before the call;
the coefficients and the gain are unchanged by process. -/
theorem process_channel_zero_only (m : Biquad α) (X X' : SignalBank α)
    (hlen : X.getNSamples = X'.getNSamples)
    (hagree : ∀ s, s < X.getNSamples → X.getSample 0 s = X'.getSample 0 s) :
    (m.processInternal X).z = (m.processInternal X').z
      ∧ (m.processInternal X).output = (m.processInternal X').output
      ∧ (∀ e c s, c ≠ 0 → (m.processInternal X).output.signal e c s = m.output.signal e c s)
      ∧ (m.processInternal X).bCoefs = m.bCoefs ∧ (m.processInternal X).aCoefs = m.aCoefs
      ∧ (m.processInternal X).gain = m.gain := by
  have heq : m.processInternal X = m.processInternal X' := by
    simp only [processInternal]
    rw [← hlen]
    exact processSteps_input_congr X X' m X.getNSamples hagree
  obtain ⟨fb, fa, fg, _⟩ := processSteps_frame X m X.getNSamples
  refine ⟨by rw [heq], by rw [heq], ?_, fb, fa, fg⟩
  intro e c s hc
  have h := processSteps_output_stable X m 0 X.getNSamples e c s (by omega)
  simp only [Nat.zero_add, processSteps_zero] at h
  exact h

/-- Two blocks on the rational example that agree on channel 0 and differ in
channel 1. -/
theorem process_channel_zero_only_witness :
    (exampleBiquad.processInternal exampleBlock).z
        = (exampleBiquad.processInternal exampleBlockOtherChannels).z
      ∧ (exampleBiquad.processInternal exampleBlock).output
        = (exampleBiquad.processInternal exampleBlockOtherChannels).output
      ∧ (∀ e c s, c ≠ 0 →
          (exampleBiquad.processInternal exampleBlock).output.signal e c s
            = exampleBiquad.output.signal e c s)
      ∧ (exampleBiquad.processInternal exampleBlock).bCoefs = exampleBiquad.bCoefs
      ∧ (exampleBiquad.processInternal exampleBlock).aCoefs = exampleBiquad.aCoefs
      ∧ (exampleBiquad.processInternal exampleBlock).gain = exampleBiquad.gain :=
  process_channel_zero_only exampleBiquad exampleBlock exampleBlockOtherChannels rfl
    (by
      intro s _
      simp [exampleBlockOtherChannels, SignalBank.getSample])

end Biquad

/-! ## IntegratedLoudnessGM: initialize past its assertions -/

namespace IntegratedLoudnessGM

/-- When both assertions pass, `initializeInternal` returns true and the state
built by the statements after them. -/
theorem initializeInternal_eq_ok (freqToCam exp : α → α) (m : IntegratedLoudnessGM α)
    (input : SignalBank α) (hc : 1 < input.getNChannels) (he : 2 < input.getNEars) :
    m.initializeInternal freqToCam exp input
      = Except.ok (true, m.initializedState freqToCam exp input) := by
  simp [initializeInternal, initializedState, LOUDNESS_ASSERT, hc, he, bind, Except.bind, pure,
    Except.pure]

/-- When the ear count is at most 2, `initializeInternal` stops at an assertion. -/
theorem initializeInternal_error_of_ears (freqToCam exp : α → α) (m : IntegratedLoudnessGM α)
    (input : SignalBank α) (he : ¬ 2 < input.getNEars) :
    ∃ msg, m.initializeInternal freqToCam exp input = Except.error msg := by
  by_cases hc : 1 < input.getNChannels
  · exact ⟨_, by simp [initializeInternal, LOUDNESS_ASSERT, hc, he, bind, Except.bind]; rfl⟩
  · exact ⟨_, by simp [initializeInternal, LOUDNESS_ASSERT, hc, bind, Except.bind]; rfl⟩

/-- A successful `initializeInternal` has passed both assertions and returned
the state built after them. -/
theorem initializeInternal_ok_inv (freqToCam exp : α → α) (m m1 : IntegratedLoudnessGM α)
    (input : SignalBank α) (flag : Bool)
    (h : m.initializeInternal freqToCam exp input = Except.ok (flag, m1)) :
    flag = true ∧ m1 = m.initializedState freqToCam exp input ∧ 1 < input.getNChannels
      ∧ 2 < input.getNEars := by
  by_cases he : 2 < input.getNEars
  · by_cases hc : 1 < input.getNChannels
    · rw [initializeInternal_eq_ok freqToCam exp m input hc he] at h
      injection h with h
      injection h with h1 h2
      exact ⟨h1.symm, h2.symm, hc, he⟩
    · simp [initializeInternal, LOUDNESS_ASSERT, hc, bind, Except.bind] at h
  · obtain ⟨msg, hm⟩ := initializeInternal_error_of_ears freqToCam exp m input he
    rw [hm] at h
    exact Except.noConfusion h

/-- C11, the code on the example of the claim: with one ear, camStep = 0.5 and
cParam0 = 2.0, `initializeInternal` stops at the assertion on the ear count, so
no scale is set and no frame is processed; the statements after the assertion
would set camStep = 0.5 and the scale 2.0 * 2 * 0.5 = 2.0. With two ears it
stops at the same assertion, and with three ears it returns the scale
cParam0 * camStep = 1.0. -/
theorem diotic_scale_not_reached (exp : ℚ → ℚ) :
    exampleIntegrator.initializeInternal (fun f => f / 200) exp (exampleFrame 1)
        = Except.error "IntegratedLoudnessGM: A human has no more than two ears"
      ∧ (exampleIntegrator.initializedState (fun f => f / 200) exp (exampleFrame 1)).camStep
          = 1 / 2
      ∧ (exampleIntegrator.initializedState (fun f => f / 200) exp (exampleFrame 1)).cParam = 2
      ∧ exampleIntegrator.initializeInternal (fun f => f / 200) exp (exampleFrame 2)
        = Except.error "IntegratedLoudnessGM: A human has no more than two ears"
      ∧ ∃ m1, exampleIntegrator.initializeInternal (fun f => f / 200) exp (exampleFrame 3)
            = Except.ok (true, m1) ∧ m1.cParam = 1 := by
  refine ⟨?_, ?_, ?_, ?_, ?_⟩
  · simp [initializeInternal, LOUDNESS_ASSERT, exampleFrame, SignalBank.getNChannels,
      SignalBank.getNEars, bind, Except.bind]
  · simp only [initializedState, exampleFrame, SignalBank.getCentreFreq]
    norm_num
  · simp only [initializedState, exampleFrame, exampleIntegrator, SignalBank.getCentreFreq,
      SignalBank.getNEars]
    norm_num
  · simp [initializeInternal, LOUDNESS_ASSERT, exampleFrame, SignalBank.getNChannels,
      SignalBank.getNEars, bind, Except.bind]
  · refine ⟨_, initializeInternal_eq_ok _ _ _ _ (by decide) (by decide), ?_⟩
    simp only [initializedState, exampleFrame, exampleIntegrator, SignalBank.getCentreFreq,
      SignalBank.getNEars]
    norm_num

/-! ## IntegratedLoudnessGM: one ear among several -/

/-- The values computed for an ear read the input only through the channel count
and the samples of that ear, and the state only through the scale, the four
coefficients and the previous outputs of that ear. -/
theorem ear_values_congr_input (X X' : SignalBank α) (m m' : IntegratedLoudnessGM α)
    (ear : Nat) (hch : X'.getNChannels = X.getNChannels)
    (hin : ∀ chn, X'.signal ear chn 0 = X.signal ear chn 0)
    (hc : m'.cParam = m.cParam) (h1 : m'.attackSTLCoef = m.attackSTLCoef)
    (h2 : m'.releaseSTLCoef = m.releaseSTLCoef) (h3 : m'.attackLTLCoef = m.attackLTLCoef)
    (h4 : m'.releaseLTLCoef = m.releaseLTLCoef)
    (ho : ∀ c s, m'.output.signal ear c s = m.output.signal ear c s) :
    earIL X' m' ear = earIL X m ear ∧ earSTL X' m' ear = earSTL X m ear
      ∧ earLTL X' m' ear = earLTL X m ear := by
  have hIL : earIL X' m' ear = earIL X m ear := by simp [earIL, hc, hch, hin]
  have hSTL : earSTL X' m' ear = earSTL X m ear := by simp [earSTL, hIL, h1, h2, ho]
  exact ⟨hIL, hSTL, by simp [earLTL, hSTL, h3, h4, ho]⟩

/-- C14: the [IL, STL, LTL] values that process writes for an ear are the same in
two runs that have the same scale and coefficients, the same channel count, the
same specific loudness for that ear and the same previous output for that ear,
whatever the input and the previous output of the other ears are. -/
theorem ear_independence (m m' : IntegratedLoudnessGM α) (X X' : SignalBank α) (ear : Nat)
    (hear : ear < X.getNEars) (hear' : ear < X'.getNEars)
    (hch : X'.getNChannels = X.getNChannels)
    (hin : ∀ chn, X'.signal ear chn 0 = X.signal ear chn 0)
    (hc : m'.cParam = m.cParam) (h1 : m'.attackSTLCoef = m.attackSTLCoef)
    (h2 : m'.releaseSTLCoef = m.releaseSTLCoef) (h3 : m'.attackLTLCoef = m.attackLTLCoef)
    (h4 : m'.releaseLTLCoef = m.releaseLTLCoef)
    (hprev : ∀ c s, m'.output.signal ear c s = m.output.signal ear c s) :
    (m'.processInternal X').output.signal ear 0 0 = (m.processInternal X).output.signal ear 0 0
      ∧ (m'.processInternal X').output.signal ear 1 0
          = (m.processInternal X).output.signal ear 1 0
      ∧ (m'.processInternal X').output.signal ear 2 0
          = (m.processInternal X).output.signal ear 2 0 := by
  obtain ⟨a0, a1, a2⟩ := (earLoop_spec X m X.getNEars).2.2 ear hear
  obtain ⟨b0, b1, b2⟩ := (earLoop_spec X' m' X'.getNEars).2.2 ear hear'
  obtain ⟨c0, c1, c2⟩ := ear_values_congr_input X X' m m' ear hch hin hc h1 h2 h3 h4 hprev
  simp only [processInternal]
  exact ⟨by rw [a0, b0, c0], by rw [a1, b1, c1], by rw [a2, b2, c2]⟩

/-- Ear 1 of two two-ear runs on the rational example that differ in the input
and in the previous output of ear 0. -/
theorem ear_independence_witness :
    (exampleIntegratorOtherEar.processInternal exampleFrameOtherEar).output.signal 1 0 0
        = (exampleIntegrator.processInternal (exampleFrame 2)).output.signal 1 0 0
      ∧ (exampleIntegratorOtherEar.processInternal exampleFrameOtherEar).output.signal 1 1 0
          = (exampleIntegrator.processInternal (exampleFrame 2)).output.signal 1 1 0
      ∧ (exampleIntegratorOtherEar.processInternal exampleFrameOtherEar).output.signal 1 2 0
          = (exampleIntegrator.processInternal (exampleFrame 2)).output.signal 1 2 0 :=
  ear_independence exampleIntegrator exampleIntegratorOtherEar (exampleFrame 2)
    exampleFrameOtherEar 1 (by decide) (by decide) rfl
    (by intro chn; simp [exampleFrameOtherEar]) rfl rfl rfl rfl rfl
    (by intro c s; simp [exampleIntegratorOtherEar])

/-! ## IntegratedLoudnessGM: the presets -/

theorem configureSmoothingTimes_GM2002 (log : α → α) (m : IntegratedLoudnessGM α) :
    configureSmoothingTimes log m "GM2002" =
      { m with attackTimeSTL := -0.001 / log (1 - 0.045),
               releaseTimeSTL := -0.001 / log (1 - 0.02),
               attackTimeLTL := -0.001 / log (1 - 0.01),
               releaseTimeLTL := -0.001 / log (1 - 0.0005) } := by
  rw [configureSmoothingTimes]
  simp [setAttackTimeSTL, setReleaseTimeSTL, setAttackTimeLTL, setReleaseTimeLTL]

theorem configureSmoothingTimes_GM2003 (log : α → α) (m : IntegratedLoudnessGM α) :
    configureSmoothingTimes log m "GM2003" =
      { m with attackTimeSTL := -0.001 / log (1 - 0.045),
               releaseTimeSTL := -0.001 / log (1 - 0.02),
               attackTimeLTL := -0.001 / log (1 - 0.01),
               releaseTimeLTL := -0.001 / log (1 - 0.005) } := by
  rw [configureSmoothingTimes]
  simp [setAttackTimeSTL, setReleaseTimeSTL, setAttackTimeLTL, setReleaseTimeLTL]

theorem configureSmoothingTimes_CH2012 (log : α → α) (m : IntegratedLoudnessGM α) :
    configureSmoothingTimes log m "CH2012" =
      { m with attackTimeSTL := 0.016, releaseTimeSTL := 0.032, attackTimeLTL := 0.1,
               releaseTimeLTL := 2.0 } := by
  rw [configureSmoothingTimes]
  simp [setAttackTimeSTL, setReleaseTimeSTL, setAttackTimeLTL, setReleaseTimeLTL]

theorem configureSmoothingTimes_unknown (log : α → α) (m : IntegratedLoudnessGM α)
    (author : String) (h1 : author ≠ "GM2002") (h2 : author ≠ "GM2003")
    (h3 : author ≠ "CH2012") :
    configureSmoothingTimes log m author = configureSmoothingTimes log m "GM2002" := by
  rw [configureSmoothingTimes]
  simp only [if_neg h1, if_neg h2, if_neg h3]

/-- C15: for every preset name other than "GM2002", "GM2003" and "CH2012",
`configureSmoothingTimes` returns, and what it returns is what it returns for
"GM2002": the four time constants are those of "GM2002" and nothing else is
touched; so the constructor with such a name gives the same state as with
"GM2002". -/
theorem unknown_preset_fallback (log : α → α) (m blank : IntegratedLoudnessGM α)
    (author : String) (cParam : α) (h1 : author ≠ "GM2002") (h2 : author ≠ "GM2003")
    (h3 : author ≠ "CH2012") :
    configureSmoothingTimes log m author = configureSmoothingTimes log m "GM2002"
      ∧ (configureSmoothingTimes log m author).attackTimeSTL = -0.001 / log (1 - 0.045)
      ∧ (configureSmoothingTimes log m author).releaseTimeSTL = -0.001 / log (1 - 0.02)
      ∧ (configureSmoothingTimes log m author).attackTimeLTL = -0.001 / log (1 - 0.01)
      ∧ (configureSmoothingTimes log m author).releaseTimeLTL = -0.001 / log (1 - 0.0005)
      ∧ construct log blank author cParam = construct log blank "GM2002" cParam := by
  have h := configureSmoothingTimes_unknown log m author h1 h2 h3
  refine ⟨h, ?_, ?_, ?_, ?_, ?_⟩
  · rw [h, configureSmoothingTimes_GM2002]
  · rw [h, configureSmoothingTimes_GM2002]
  · rw [h, configureSmoothingTimes_GM2002]
  · rw [h, configureSmoothingTimes_GM2002]
  · simp only [construct]
    exact configureSmoothingTimes_unknown log _ author h1 h2 h3

/-- The fallback on the preset name "Zwicker" over the rationals, with the
identity in place of the logarithm. -/
theorem unknown_preset_fallback_witness :
    configureSmoothingTimes (fun x : ℚ => x) exampleIntegrator "Zwicker"
        = configureSmoothingTimes (fun x : ℚ => x) exampleIntegrator "GM2002"
      ∧ construct (fun x : ℚ => x) exampleIntegrator "Zwicker" 1
        = construct (fun x : ℚ => x) exampleIntegrator "GM2002" 1 :=
  ⟨(unknown_preset_fallback (fun x : ℚ => x) exampleIntegrator exampleIntegrator "Zwicker" 1
      (by decide) (by decide) (by decide)).1,
    (unknown_preset_fallback (fun x : ℚ => x) exampleIntegrator exampleIntegrator "Zwicker" 1
      (by decide) (by decide) (by decide)).2.2.2.2.2⟩

/-! ## IntegratedLoudnessGM: successive frames -/

/-- A call of process leaves the scale and the four coefficients alone. -/
theorem processInternal_params (m : IntegratedLoudnessGM α) (X : SignalBank α) :
    (m.processInternal X).cParam = m.cParam
      ∧ (m.processInternal X).attackSTLCoef = m.attackSTLCoef
      ∧ (m.processInternal X).releaseSTLCoef = m.releaseSTLCoef
      ∧ (m.processInternal X).attackLTLCoef = m.attackLTLCoef
      ∧ (m.processInternal X).releaseLTLCoef = m.releaseLTLCoef :=
  (earLoop_spec X m X.getNEars).1

/-- A call of process writes, for each ear of the input, the three values
computed from the state before the call. -/
theorem processInternal_ear_values (m : IntegratedLoudnessGM α) (X : SignalBank α) (ear : Nat)
    (hear : ear < X.getNEars) :
    (m.processInternal X).output.signal ear 0 0 = earIL X m ear
      ∧ (m.processInternal X).output.signal ear 1 0 = earSTL X m ear
      ∧ (m.processInternal X).output.signal ear 2 0 = earLTL X m ear :=
  (earLoop_spec X m X.getNEars).2.2 ear hear

theorem runFrames_params (m : IntegratedLoudnessGM α) (frames : Nat → SignalBank α) (k : Nat) :
    (runFrames m frames k).cParam = m.cParam
      ∧ (runFrames m frames k).attackSTLCoef = m.attackSTLCoef
      ∧ (runFrames m frames k).releaseSTLCoef = m.releaseSTLCoef
      ∧ (runFrames m frames k).attackLTLCoef = m.attackLTLCoef
      ∧ (runFrames m frames k).releaseLTLCoef = m.releaseLTLCoef := by
  induction k with
  | zero => exact ⟨rfl, rfl, rfl, rfl, rfl⟩
  | succ k ih =>
    obtain ⟨p0, p1, p2, p3, p4⟩ := ih
    obtain ⟨q0, q1, q2, q3, q4⟩ := processInternal_params (runFrames m frames k) (frames k)
    exact ⟨q0.trans p0, q1.trans p1, q2.trans p2, q3.trans p3, q4.trans p4⟩

/-- Under a constant instantaneous loudness above the initial short-term value,
with an attack coefficient below 1, every frame takes the attack branch and the
distance to the target shrinks by the factor 1 - attackSTLCoef per frame. -/
theorem attack_run (m : IntegratedLoudnessGM α) (frames : Nat → SignalBank α) (ear : Nat)
    (IL : α) (hear : ∀ k, ear < (frames k).getNEars)
    (hIL : ∀ k, earIL (frames k) m ear = IL)
    (hs0 : m.output.signal ear 1 0 < IL) (ha1 : m.attackSTLCoef < 1) (k : Nat) :
    IL - (runFrames m frames k).output.signal ear 1 0
        = (IL - m.output.signal ear 1 0) * (1 - m.attackSTLCoef) ^ k
      ∧ (runFrames m frames k).output.signal ear 1 0 < IL
      ∧ (runFrames m frames (k + 1)).output.signal ear 1 0
          = m.attackSTLCoef * (IL - (runFrames m frames k).output.signal ear 1 0)
            + (runFrames m frames k).output.signal ear 1 0
      ∧ (runFrames m frames (k + 1)).output.signal ear 0 0 = IL := by
  have hstep : ∀ j, (runFrames m frames j).output.signal ear 1 0 < IL →
      (runFrames m frames (j + 1)).output.signal ear 1 0
          = m.attackSTLCoef * (IL - (runFrames m frames j).output.signal ear 1 0)
            + (runFrames m frames j).output.signal ear 1 0
        ∧ (runFrames m frames (j + 1)).output.signal ear 0 0 = IL := by
    intro j hj
    obtain ⟨p0, p1, _, _, _⟩ := runFrames_params m frames j
    obtain ⟨w0, w1, _⟩ := processInternal_ear_values (runFrames m frames j) (frames j) ear
      (hear j)
    have hil : earIL (frames j) (runFrames m frames j) ear = IL := by
      rw [← hIL j]
      simp only [earIL, p0]
    rw [show runFrames m frames (j + 1)
      = (runFrames m frames j).processInternal (frames j) from rfl, w0, w1]
    refine ⟨?_, hil⟩
    simp only [earSTL, hil, p1]
    rw [if_pos hj]
  induction k with
  | zero =>
    refine ⟨by simp [runFrames], hs0, (hstep 0 hs0).1, (hstep 0 hs0).2⟩
  | succ k ih =>
    obtain ⟨i1, i2, i3, _⟩ := ih
    have hpos : 0 < 1 - m.attackSTLCoef := by linarith
    have heq : IL - (runFrames m frames (k + 1)).output.signal ear 1 0
        = (IL - m.output.signal ear 1 0) * (1 - m.attackSTLCoef) ^ (k + 1) := by
      rw [i3, pow_succ, ← mul_assoc, ← i1]
      ring
    have hlt : (runFrames m frames (k + 1)).output.signal ear 1 0 < IL := by
      have h0 : 0 < (IL - m.output.signal ear 1 0) * (1 - m.attackSTLCoef) ^ (k + 1) :=
        mul_pos (by linarith) (pow_pos hpos _)
      linarith
    exact ⟨heq, hlt, (hstep (k + 1) hlt).1, (hstep (k + 1) hlt).2⟩

/-- The scale and the instantaneous loudness of the spec in the order of the code. -/
theorem earIL_eq (X : SignalBank α) (m : IntegratedLoudnessGM α) (ear : Nat) :
    earIL X m ear = m.cParam * ∑ chn in Finset.range X.getNChannels, X.signal ear chn 0 := by
  simp only [earIL]
  ring

/-- C13: under a constant instantaneous loudness IL above the initial STL value
s0, on an initialized integrator the STL output after k process calls is
IL - (IL - s0) * exp(-k * timeStep / attackTimeSTL) with timeStep = 1 /
inputFrameRate, for every k, in particular for k ≥ 1; with s0 = 0 it is
IL * (1 - exp(-t / tau)) at t = k * timeStep and tau = attackTimeSTL. No release
or LTL time constant occurs in it. -/
theorem attack_closed_form (freqToCam : ℝ → ℝ) (m m1 : IntegratedLoudnessGM ℝ)
    (input : SignalBank ℝ) (frames : Nat → SignalBank ℝ) (ear : Nat) (IL : ℝ)
    (hinit : m.initializeInternal freqToCam Real.exp input = Except.ok (true, m1))
    (hear : ∀ k, ear < (frames k).getNEars)
    (hIL : ∀ k, m1.cParam * ∑ chn in Finset.range (frames k).getNChannels,
        (frames k).signal ear chn 0 = IL)
    (hs0 : m1.output.signal ear 1 0 < IL) (k : Nat) :
    m1.timeStep = 1 / input.getFrameRate
      ∧ (runFrames m1 frames k).output.signal ear 1 0
          = IL - (IL - m1.output.signal ear 1 0)
              * Real.exp (-(k : ℝ) * m1.timeStep / m.attackTimeSTL)
      ∧ (m1.output.signal ear 1 0 = 0 →
          (runFrames m1 frames k).output.signal ear 1 0
            = IL * (1 - Real.exp (-((k : ℝ) * m1.timeStep) / m.attackTimeSTL))) := by
  obtain ⟨_, hm1, _, _⟩ := initializeInternal_ok_inv freqToCam Real.exp m m1 input true hinit
  have hone : (1.0 : ℝ) = 1 := by norm_num
  have hts : m1.timeStep = 1 / input.getFrameRate := by
    rw [hm1]
    simp only [initializedState, hone]
  have ha : 1 - m1.attackSTLCoef = Real.exp (-m1.timeStep / m.attackTimeSTL) := by
    rw [hts, hm1]
    simp only [initializedState, hone]
    ring
  have ha1 : m1.attackSTLCoef < 1 := by
    have := Real.exp_pos (-m1.timeStep / m.attackTimeSTL)
    linarith
  have hIL' : ∀ j, earIL (frames j) m1 ear = IL := fun j => by rw [earIL_eq, hIL j]
  obtain ⟨h1, _, _, _⟩ := attack_run m1 frames ear IL hear hIL' hs0 ha1 k
  have hexp : (1 - m1.attackSTLCoef) ^ k
      = Real.exp (-(k : ℝ) * m1.timeStep / m.attackTimeSTL) := by
    rw [ha, ← Real.exp_nat_mul]
    congr 1
    ring
  rw [hexp] at h1
  have hmain : (runFrames m1 frames k).output.signal ear 1 0
      = IL - (IL - m1.output.signal ear 1 0)
          * Real.exp (-(k : ℝ) * m1.timeStep / m.attackTimeSTL) := by
    linarith
  refine ⟨hts, hmain, ?_⟩
  intro h0
  rw [hmain, h0]
  have : -((k : ℝ) * m1.timeStep) / m.attackTimeSTL = -(k : ℝ) * m1.timeStep / m.attackTimeSTL := by
    ring
  rw [this]
  ring

/-- The closed form on the three-ear example over the reals, after 3 frames:
timeStep 1/1000, IL = 1/2, s0 = 0, attack time constant 1. -/
theorem attack_closed_form_witness :
    (runFrames (exampleInitialized Real.exp) (fun _ => (threeEarFrame : SignalBank ℝ))
        3).output.signal 0 1 0
      = 1 / 2 - (1 / 2 - (exampleInitialized Real.exp).output.signal 0 1 0)
          * Real.exp (-((3 : Nat) : ℝ) * (exampleInitialized Real.exp).timeStep
              / (unitIntegrator : IntegratedLoudnessGM ℝ).attackTimeSTL) :=
  (attack_closed_form (fun f => f / 200) unitIntegrator
    (exampleInitialized Real.exp) threeEarFrame (fun _ => threeEarFrame) 0 (1 / 2)
    (initializeInternal_eq_ok _ _ _ _ (by decide) (by decide))
    (fun _ => by
      show 0 < (threeEarFrame : SignalBank ℝ).getNEars
      decide)
    (fun _ => by
      simp only [exampleInitialized, initializedState, unitIntegrator, threeEarFrame,
        SignalBank.getCentreFreq, SignalBank.getNEars, SignalBank.getNChannels,
        Finset.sum_range_succ, Finset.sum_range_zero]
      norm_num)
    (by
      simp only [exampleInitialized, initializedState, unitIntegrator, SignalBank.initialize4,
        SignalBank.setFrameRate, SignalBank.empty]
      norm_num)
    3).2.1

/-! ## IntegratedLoudnessGM: the coefficients of the presets -/

/-- At the time step 1/1000 the time constant -0.001 / log(1 - p) gives back the
coefficient p. -/
theorem preset_coef (p : ℝ) (hp0 : 0 < p) (hp1 : p < 1) :
    1 - Real.exp (-(1.0 / 1000) / (-0.001 / Real.log (1 - p))) = p := by
  have hlog : Real.log (1 - p) ≠ 0 := ne_of_lt (Real.log_neg (by linarith) (by linarith))
  have harg : -(1.0 / 1000) / (-0.001 / Real.log (1 - p)) = Real.log (1 - p) := by
    field_simp
    norm_num
  rw [harg, Real.exp_log (by linarith)]
  ring

/-- C17: with the "GM2002" preset and an input frame rate of 1000, a successful
initialize sets timeStep = 0.001, attackSTLCoef = 0.045, releaseSTLCoef = 0.02,
attackLTLCoef = 0.01 and releaseLTLCoef = 0.0005 over the reals; with "GM2003"
it sets the same first three and releaseLTLCoef = 0.005. -/
theorem published_coefficients (freqToCam : ℝ → ℝ) (blank m1 m2 : IntegratedLoudnessGM ℝ)
    (cParam : ℝ) (input : SignalBank ℝ) (hrate : input.getFrameRate = 1000)
    (h1 : (construct Real.log blank "GM2002" cParam).initializeInternal freqToCam Real.exp input
      = Except.ok (true, m1))
    (h2 : (construct Real.log blank "GM2003" cParam).initializeInternal freqToCam Real.exp input
      = Except.ok (true, m2)) :
    (m1.timeStep = 0.001 ∧ m1.attackSTLCoef = 0.045 ∧ m1.releaseSTLCoef = 0.02
        ∧ m1.attackLTLCoef = 0.01 ∧ m1.releaseLTLCoef = 0.0005)
      ∧ (m2.timeStep = 0.001 ∧ m2.attackSTLCoef = 0.045 ∧ m2.releaseSTLCoef = 0.02
        ∧ m2.attackLTLCoef = 0.01 ∧ m2.releaseLTLCoef = 0.005) := by
  obtain ⟨_, e1, _, _⟩ := initializeInternal_ok_inv freqToCam Real.exp _ m1 input true h1
  obtain ⟨_, e2, _, _⟩ := initializeInternal_ok_inv freqToCam Real.exp _ m2 input true h2
  have c1 := preset_coef 0.045 (by norm_num) (by norm_num)
  have c2 := preset_coef 0.02 (by norm_num) (by norm_num)
  have c3 := preset_coef 0.01 (by norm_num) (by norm_num)
  have c4 := preset_coef 0.0005 (by norm_num) (by norm_num)
  have c5 := preset_coef 0.005 (by norm_num) (by norm_num)
  refine ⟨?_, ?_⟩
  · rw [e1]
    simp only [construct, configureSmoothingTimes_GM2002, initializedState, hrate]
    exact ⟨by norm_num, c1, c2, c3, c4⟩
  · rw [e2]
    simp only [construct, configureSmoothingTimes_GM2003, initializedState, hrate]
    exact ⟨by norm_num, c1, c2, c3, c5⟩

/-- The published coefficients on the three-ear example at 1000 frames per
second: the attack STL coefficient of "GM2002" and the release LTL coefficient
of "GM2003". -/
theorem published_coefficients_witness :
    ((construct Real.log unitIntegrator "GM2002" 1).initializedState (fun f => f / 200) Real.exp
        threeEarFrame).attackSTLCoef = 0.045
      ∧ ((construct Real.log unitIntegrator "GM2003" 1).initializedState (fun f => f / 200)
        Real.exp threeEarFrame).releaseLTLCoef = 0.005 :=
  ⟨(published_coefficients (fun f => f / 200) unitIntegrator _ _ 1 threeEarFrame rfl
      (initializeInternal_eq_ok _ _ _ _ (by decide) (by decide))
      (initializeInternal_eq_ok _ _ _ _ (by decide) (by decide))).1.2.1,
    (published_coefficients (fun f => f / 200) unitIntegrator _ _ 1 threeEarFrame rfl
      (initializeInternal_eq_ok _ _ _ _ (by decide) (by decide))
      (initializeInternal_eq_ok _ _ _ _ (by decide) (by decide))).2.2.2.2.2⟩

/-! ## IntegratedLoudnessGM: the attack response and the coefficients with a
library exponential that may return 0 or 1 -/

/-- The attack coefficient set by a successful initialize lies in [0, 1] when
the frame rate and the time constant are positive and the library exponential
maps non-positive arguments into [0, 1]. -/
theorem initialized_coef_mem (exp : α → α) (hexp : ∀ x, x ≤ 0 → 0 ≤ exp x ∧ exp x ≤ 1)
    (rate tau : α) (hrate : 0 < rate) (htau : 0 < tau) :
    0 ≤ 1 - exp (-(1.0 / rate) / tau) ∧ 1 - exp (-(1.0 / rate) / tau) ≤ 1 := by
  have hone : (1.0 : α) = 1 := by norm_num
  have ht : 0 < (1.0 : α) / rate := by
    rw [hone]
    exact one_div_pos.2 hrate
  have hneg : -(1.0 / rate) / tau ≤ 0 := le_of_lt (div_neg_of_neg_of_pos (by linarith) htau)
  obtain ⟨h0, h1⟩ := hexp _ hneg
  exact ⟨by linarith, by linarith⟩

/-! ### The slow example: one frame every 16 seconds, preset "CH2012" -/

/-- The underflowing exponential maps non-positive arguments into [0, 1] when
the exponential it wraps does. -/
theorem underflowingExp_mem (exp : α → α) (hexp : ∀ x, x ≤ 0 → 0 ≤ exp x ∧ exp x ≤ 1) (x : α)
    (hx : x ≤ 0) : 0 ≤ underflowingExp exp x ∧ underflowingExp exp x ≤ 1 := by
  simp only [underflowingExp]
  split_ifs
  · exact ⟨le_refl 0, zero_le_one⟩
  · exact hexp x hx

theorem real_exp_mem (x : ℝ) (hx : x ≤ 0) : 0 ≤ Real.exp x ∧ Real.exp x ≤ 1 :=
  ⟨Real.exp_nonneg x, Real.exp_le_one_iff.2 hx⟩

/-- On the slow example initialize passes its assertions. -/
theorem slow_initializeInternal (log exp : α → α) :
    (slowIntegrator log).initializeInternal (fun f => f / 200) (underflowingExp exp) slowFrame
      = Except.ok (true, slowInitialized log exp) :=
  initializeInternal_eq_ok _ _ _ _ (by simp [slowFrame, SignalBank.getNChannels])
    (by simp [slowFrame, SignalBank.getNEars])

/-- On the slow example the attack time constant is 0.016, the argument of the
exponential is -1000, the exponential underflows and the attack coefficient is
exactly 1. -/
theorem slowInitialized_attackSTLCoef (log exp : α → α) :
    (slowInitialized log exp).attackSTLCoef = 1 := by
  simp only [slowInitialized, slowIntegrator, construct, configureSmoothingTimes_CH2012,
    initializedState, slowFrame, SignalBank.getFrameRate, underflowingExp]
  norm_num

/-- C18, against the claim as stated: with the preset "CH2012" and the positive
input frame rate 1/16, initialize succeeds and the attack STL coefficient it
derives is exactly 1 (the library exponential underflows to 0 at -1000), so it
does not lie strictly below 1. -/
theorem preset_coefficient_reaches_one :
    (slowIntegrator Real.log).initializeInternal (fun f => f / 200)
          (underflowingExp Real.exp) slowFrame
        = Except.ok (true, slowInitialized Real.log Real.exp)
      ∧ 0 < (slowFrame : SignalBank ℝ).getFrameRate
      ∧ (slowInitialized Real.log Real.exp).attackSTLCoef = 1
      ∧ ¬ ((slowInitialized Real.log Real.exp).attackSTLCoef < 1) := by
  refine ⟨slow_initializeInternal Real.log Real.exp, ?_,
    slowInitialized_attackSTLCoef Real.log Real.exp, ?_⟩
  · norm_num [slowFrame, SignalBank.getFrameRate]
  · rw [slowInitialized_attackSTLCoef]
    exact lt_irrefl _

/-- C18, amended: for each of the presets "GM2002", "GM2003" and "CH2012", with a
library logarithm that is negative on arguments strictly between 0 and 1 and a
library exponential that maps non-positive arguments into [0, 1], the four time
constants set by the constructor are strictly positive, and after a successful
initialize against an input with a positive frame rate each of the four
smoothing coefficients lies between 0 and 1, the bounds included. -/
theorem preset_coefficients_in_closed_unit_interval (freqToCam exp log : α → α)
    (blank m1 : IntegratedLoudnessGM α) (cParam : α) (author : String)
    (input : SignalBank α)
    (hlog : ∀ p, 0 < p → p < 1 → log p < 0)
    (hexp : ∀ x, x ≤ 0 → 0 ≤ exp x ∧ exp x ≤ 1)
    (hauthor : author = "GM2002" ∨ author = "GM2003" ∨ author = "CH2012")
    (hrate : 0 < input.getFrameRate)
    (hinit : (construct log blank author cParam).initializeInternal freqToCam exp input
      = Except.ok (true, m1)) :
    (0 < (construct log blank author cParam).attackTimeSTL
        ∧ 0 < (construct log blank author cParam).releaseTimeSTL
        ∧ 0 < (construct log blank author cParam).attackTimeLTL
        ∧ 0 < (construct log blank author cParam).releaseTimeLTL)
      ∧ (0 ≤ m1.attackSTLCoef ∧ m1.attackSTLCoef ≤ 1)
      ∧ (0 ≤ m1.releaseSTLCoef ∧ m1.releaseSTLCoef ≤ 1)
      ∧ (0 ≤ m1.attackLTLCoef ∧ m1.attackLTLCoef ≤ 1)
      ∧ (0 ≤ m1.releaseLTLCoef ∧ m1.releaseLTLCoef ≤ 1) := by
  obtain ⟨_, e1, _, _⟩ := initializeInternal_ok_inv freqToCam exp _ m1 input true hinit
  have hpos : ∀ p : α, 0 < p → p < 1 → 0 < -0.001 / log (1 - p) := by
    intro p hp0 hp1
    exact div_pos_of_neg_of_neg (by norm_num) (hlog (1 - p) (by linarith) (by linarith))
  have htau : 0 < (construct log blank author cParam).attackTimeSTL
      ∧ 0 < (construct log blank author cParam).releaseTimeSTL
      ∧ 0 < (construct log blank author cParam).attackTimeLTL
      ∧ 0 < (construct log blank author cParam).releaseTimeLTL := by
    rcases hauthor with h | h | h
    · subst h
      simp only [construct, configureSmoothingTimes_GM2002]
      exact ⟨hpos 0.045 (by norm_num) (by norm_num), hpos 0.02 (by norm_num) (by norm_num),
        hpos 0.01 (by norm_num) (by norm_num), hpos 0.0005 (by norm_num) (by norm_num)⟩
    · subst h
      simp only [construct, configureSmoothingTimes_GM2003]
      exact ⟨hpos 0.045 (by norm_num) (by norm_num), hpos 0.02 (by norm_num) (by norm_num),
        hpos 0.01 (by norm_num) (by norm_num), hpos 0.005 (by norm_num) (by norm_num)⟩
    · subst h
      simp only [construct, configureSmoothingTimes_CH2012]
      norm_num
  obtain ⟨t1, t2, t3, t4⟩ := htau
  refine ⟨⟨t1, t2, t3, t4⟩, ?_, ?_, ?_, ?_⟩
  · rw [e1]; exact initialized_coef_mem exp hexp _ _ hrate t1
  · rw [e1]; exact initialized_coef_mem exp hexp _ _ hrate t2
  · rw [e1]; exact initialized_coef_mem exp hexp _ _ hrate t3
  · rw [e1]; exact initialized_coef_mem exp hexp _ _ hrate t4

/-- The amended bounds on the slow example over the reals, preset "CH2012" at
frame rate 1/16, where the attack STL coefficient is exactly 1. -/
theorem preset_coefficients_in_closed_unit_interval_witness :
    (0 ≤ (slowInitialized Real.log Real.exp).attackSTLCoef
        ∧ (slowInitialized Real.log Real.exp).attackSTLCoef ≤ 1)
      ∧ (0 ≤ (slowInitialized Real.log Real.exp).releaseLTLCoef
        ∧ (slowInitialized Real.log Real.exp).releaseLTLCoef ≤ 1) :=
  ⟨(preset_coefficients_in_closed_unit_interval (fun f => f / 200) (underflowingExp Real.exp)
      Real.log unitIntegrator (slowInitialized Real.log Real.exp) 1 "CH2012" slowFrame
      (fun _ h0 h1 => Real.log_neg h0 h1) (underflowingExp_mem Real.exp real_exp_mem)
      (Or.inr (Or.inr rfl)) (by norm_num [slowFrame, SignalBank.getFrameRate])
      (slow_initializeInternal Real.log Real.exp)).2.1,
    (preset_coefficients_in_closed_unit_interval (fun f => f / 200) (underflowingExp Real.exp)
      Real.log unitIntegrator (slowInitialized Real.log Real.exp) 1 "CH2012" slowFrame
      (fun _ h0 h1 => Real.log_neg h0 h1) (underflowingExp_mem Real.exp real_exp_mem)
      (Or.inr (Or.inr rfl)) (by norm_num [slowFrame, SignalBank.getFrameRate])
      (slow_initializeInternal Real.log Real.exp)).2.2.2.2⟩

end IntegratedLoudnessGM

end loudness
